import Mathlib

/-!
# Verification of the TMS catalog engine (tms_tape_mgmt.cpp / tms_system.h)

Shallow embedding of the catalog core of the TMS tape-management system:
the primary volume/dataset maps (`std::map`, modelled as sorted association
lists), the five secondary indices, the audit log, and the catalog
operations (add/update/delete for volumes and datasets, reservations,
scratch allocation, batch and parallel batch execution).

Conventions of the embedding:
* `std::map<std::string, V>` is a `List (String × V)` kept sorted by key
  (strictly ascending), which also captures the map's iteration order.
* `std::set<std::string>` (index key sets, volume tags) is a `List String`
  used up to membership.
* Wall-clock instants (`std::chrono::system_clock::time_point`) are `Nat`
  seconds; the default-constructed time point is `0`.  Operations that
  consult the clock take `now : Nat` explicitly.
* `uint64_t` arithmetic on `used_bytes` wraps modulo `2 ^ 64`, written
  explicitly where the C++ can overflow.
* Fallible operations return `Except ErrorInfo _`; every C++ error return
  happens before any mutation, so the error branch carries no state.
* The audit trail, logging, performance counters and the v3.2/v3.3
  metadata (health scores, snapshots, encryption, tiering) are not part of
  the catalog state the claims are about; the audit log is modelled as the
  separate `AuditLog` structure it is in the source.
-/

namespace TMS

/-- Decidability of the lexicographic string order routed through the
character lists, so that comparisons evaluate inside the kernel. -/
instance (priority := 2000) decStringLtViaList (a b : String) : Decidable (a < b) :=
  decidable_of_iff (a.toList < b.toList) String.lt_iff_toList_lt.symm

/-- Decidability of `≤` on strings, likewise kernel-evaluable. -/
instance (priority := 2000) decStringLeViaList (a b : String) : Decidable (a ≤ b) :=
  decidable_of_iff (a.toList ≤ b.toList) String.le_iff_toList_le.symm

/-! ## Sorted association lists: the model of `std::map<std::string, V>` -/

section SortedMap

variable {α : Type}

/-- Lookup of the first entry with the given key (`std::map::find`). -/
def mLookup : List (String × α) → String → Option α
  | [], _ => none
  | (k', v) :: rest, k => if k = k' then some v else mLookup rest k

/-- Insert-or-assign at the sorted position (`std::map::operator[] = v`). -/
def mInsert : List (String × α) → String → α → List (String × α)
  | [], k, v => [(k, v)]
  | (k', v') :: rest, k, v =>
    if k < k' then (k, v) :: (k', v') :: rest
    else if k = k' then (k, v) :: rest
    else (k', v') :: mInsert rest k v

/-- Erase the entry with the given key, if present (`std::map::erase`). -/
def mErase : List (String × α) → String → List (String × α)
  | [], _ => []
  | (k', v') :: rest, k => if k = k' then rest else (k', v') :: mErase rest k

/-- The keys are strictly ascending: the `std::map` representation invariant. -/
def SortedKeys (l : List (String × α)) : Prop :=
  l.Pairwise (fun p q => p.1 < q.1)

instance : DecidablePred (SortedKeys (α := α)) := fun l =>
  List.instDecidablePairwise l

end SortedMap


/-! ## Enumerations and core data structures (tms_types.h, error_codes.h) -/

/-- `VolumeStatus` (tms_types.h). -/
inductive VolumeStatus where
  | SCRATCH | PRIVATE | ARCHIVED | EXPIRED | MOUNTED | OFFLINE | RESERVED | VOLUME_ERROR
  deriving DecidableEq, Repr

/-- `DatasetStatus` (tms_types.h). -/
inductive DatasetStatus where
  | ACTIVE | MIGRATED | EXPIRED | DELETED | RECALLED | PENDING
  deriving DecidableEq, Repr

/-- `TapeDensity` (tms_types.h). -/
inductive TapeDensity where
  | DENSITY_800BPI | DENSITY_1600BPI | DENSITY_6250BPI
  | DENSITY_3480 | DENSITY_3490 | DENSITY_3590
  | DENSITY_LTO1 | DENSITY_LTO2 | DENSITY_LTO3 | DENSITY_LTO4 | DENSITY_LTO5
  | DENSITY_LTO6 | DENSITY_LTO7 | DENSITY_LTO8 | DENSITY_LTO9
  deriving DecidableEq, Repr

/-- The `TMSError` codes used by the catalog core (error_codes.h); the
I/O/system/audit codes are never produced by the modelled operations and
are omitted. -/
inductive TMSError where
  | SUCCESS
  | VOLUME_NOT_FOUND | VOLUME_ALREADY_EXISTS | VOLUME_IN_USE | VOLUME_MOUNTED
  | VOLUME_NOT_MOUNTED | VOLUME_WRITE_PROTECTED | VOLUME_EXPIRED | VOLUME_HAS_DATASETS
  | VOLUME_OFFLINE | VOLUME_ERROR_STATE | VOLUME_RESERVED | VOLUME_RESERVATION_EXPIRED
  | VOLUME_LIMIT_REACHED
  | DATASET_NOT_FOUND | DATASET_ALREADY_EXISTS | DATASET_MIGRATED | DATASET_EXPIRED
  | DATASET_ACTIVE | DATASET_ON_DIFFERENT_VOLUME | DATASET_LIMIT_REACHED
  | INVALID_VOLSER | INVALID_DATASET_NAME | INVALID_PARAMETER | INVALID_STATE
  | ACCESS_DENIED
  | NO_SCRATCH_AVAILABLE | POOL_NOT_FOUND
  deriving DecidableEq, Repr

/-- `ErrorInfo` (error_codes.h), without the source-location fields. -/
structure ErrorInfo where
  code : TMSError
  message : String
  deriving DecidableEq, Repr

/-- `uint64_t` arithmetic wraps modulo this. -/
def UINT64_MOD : Nat := 2 ^ 64

/-- `MAX_VOLSER_LENGTH` (tms_version.h). -/
def MAX_VOLSER_LENGTH : Nat := 6

/-- `MAX_DATASET_NAME_LENGTH` (tms_version.h). -/
def MAX_DATASET_NAME_LENGTH : Nat := 44

/-- `MAX_PARALLEL_OPERATIONS` (tms_version.h). -/
def MAX_PARALLEL_OPERATIONS : Nat := 16

/-- `TapeVolume` (tms_types.h).  Wall-clock fields are `Nat` seconds with
`0` as the default-constructed time point.  The v3.2/v3.3 informational
fields (location history, health score, encryption, tiering, error
counters, notes) play no part in the catalog algorithms under
verification and are omitted. -/
structure TapeVolume where
  volser : String
  status : VolumeStatus := .SCRATCH
  density : TapeDensity := .DENSITY_LTO3
  location : String := ""
  pool : String := ""
  owner : String := ""
  creation_date : Nat := 0
  expiration_date : Nat := 0
  last_used : Nat := 0
  mount_count : Nat := 0
  write_protected : Bool := false
  capacity_bytes : Nat := 0
  used_bytes : Nat := 0
  datasets : List String := []
  tags : List String := []
  reserved_by : String := ""
  reservation_expires : Nat := 0
  deriving DecidableEq, Repr

/-- `Dataset` (tms_types.h), restricted to the fields the catalog
algorithms consult. -/
structure Dataset where
  name : String
  volser : String
  status : DatasetStatus := .ACTIVE
  size_bytes : Nat := 0
  owner : String := ""
  job_name : String := ""
  creation_date : Nat := 0
  expiration_date : Nat := 0
  tags : List String := []
  deriving DecidableEq, Repr

/-- `AuditRecord` (tms_types.h). -/
structure AuditRecord where
  timestamp : Nat := 0
  operation : String := ""
  user : String := ""
  target : String := ""
  details : String := ""
  success : Bool := true
  deriving DecidableEq, Repr

/-- `BatchResult` (tms_types.h); `duration` is wall-clock-only and omitted. -/
structure BatchResult where
  total : Nat := 0
  succeeded : Nat := 0
  failed : Nat := 0
  skipped : Nat := 0
  failures : List (String × String) := []
  deriving DecidableEq, Repr

/-! ## Validation and capacity helpers (tms_utils.h) -/

/-- `validate_volser` (tms_utils.h): 1–6 alphanumeric characters.  The
character loop runs over the string's character list. -/
def validate_volser (volser : String) : Bool :=
  if volser = "" || volser.length > MAX_VOLSER_LENGTH then false
  else volser.data.all Char.isAlphanum

/-- `validate_dataset_name` (tms_utils.h): 1–44 characters, each
alphanumeric or one of dot, dash, underscore. -/
def validate_dataset_name (name : String) : Bool :=
  if name = "" || name.length > MAX_DATASET_NAME_LENGTH then false
  else name.data.all (fun c => c.isAlphanum || c = '.' || c = '-' || c = '_')

/-- `get_density_capacity` (tms_utils.h). -/
def get_density_capacity (density : TapeDensity) : Nat :=
  match density with
  | .DENSITY_800BPI => 40 * 1024 * 1024
  | .DENSITY_1600BPI => 80 * 1024 * 1024
  | .DENSITY_6250BPI => 170 * 1024 * 1024
  | .DENSITY_3480 => 200 * 1024 * 1024
  | .DENSITY_3490 => 800 * 1024 * 1024
  | .DENSITY_3590 => 60 * 1024 * 1024 * 1024
  | .DENSITY_LTO1 => 100 * 1024 * 1024 * 1024
  | .DENSITY_LTO2 => 200 * 1024 * 1024 * 1024
  | .DENSITY_LTO3 => 400 * 1024 * 1024 * 1024
  | .DENSITY_LTO4 => 800 * 1024 * 1024 * 1024
  | .DENSITY_LTO5 => 1500 * 1024 * 1024 * 1024
  | .DENSITY_LTO6 => 2500 * 1024 * 1024 * 1024
  | .DENSITY_LTO7 => 6000 * 1024 * 1024 * 1024
  | .DENSITY_LTO8 => 12000 * 1024 * 1024 * 1024
  | .DENSITY_LTO9 => 18000 * 1024 * 1024 * 1024

/-- `TapeVolume::is_expired` (tms_types.h): `expiration_date < now`. -/
def TapeVolume.is_expired (vol : TapeVolume) (now : Nat) : Bool :=
  vol.expiration_date < now

/-- `TapeVolume::is_reserved` (tms_types.h): a non-empty holder whose
expiry is strictly in the future. -/
def TapeVolume.is_reserved (vol : TapeVolume) (now : Nat) : Bool :=
  vol.reserved_by ≠ "" && now < vol.reservation_expires

/-- `TapeVolume::is_available_for_scratch` (tms_types.h). -/
def TapeVolume.is_available_for_scratch (vol : TapeVolume) (now : Nat) : Bool :=
  vol.status = VolumeStatus.SCRATCH && !(vol.is_reserved now) && !(vol.is_expired now)

/-! ## Secondary index (tms_system.h, `SecondaryIndex<std::string>`) -/

/-- `SecondaryIndex<std::string>`: a `std::map` from attribute value to a
`std::set` of keys, the sets represented up to membership. -/
abbrev SecondaryIndex := List (String × List String)

/-- `std::set<std::string>::insert`, up to membership. -/
def setInsert (s : List String) (key : String) : List String :=
  if key ∈ s then s else key :: s

/-- `SecondaryIndex::find`. -/
def SecondaryIndex.find (idx : SecondaryIndex) (attr_value : String) : List String :=
  (mLookup idx attr_value).getD []

/-- `SecondaryIndex::add`: skips empty attribute values. -/
def SecondaryIndex.add (idx : SecondaryIndex) (attr_value key : String) : SecondaryIndex :=
  if attr_value = "" then idx
  else mInsert idx attr_value (setInsert (idx.find attr_value) key)

/-- `SecondaryIndex::remove`: erases the key from the value's set and
drops the map entry when the set becomes empty. -/
def SecondaryIndex.remove (idx : SecondaryIndex) (attr_value key : String) : SecondaryIndex :=
  match mLookup idx attr_value with
  | none => idx
  | some ks =>
    if ks.filter (fun x => x ≠ key) = [] then mErase idx attr_value
    else mInsert idx attr_value (ks.filter (fun x => x ≠ key))

/-- `SecondaryIndex::update` = remove old value, add new value. -/
def SecondaryIndex.update (idx : SecondaryIndex) (old_value new_value key : String) :
    SecondaryIndex :=
  (idx.remove old_value key).add new_value key

/-- Membership of a (attribute value, key) pair in an index. -/
def memIdx (idx : SecondaryIndex) (attr_value key : String) : Prop :=
  key ∈ idx.find attr_value

instance (idx : SecondaryIndex) (a k : String) : Decidable (memIdx idx a k) := by
  unfold memIdx; infer_instance

/-- The `for (tag : tags) index.add(tag, key)` loops of the volume/dataset
mutators. -/
def addTags (idx : SecondaryIndex) (tags : List String) (key : String) : SecondaryIndex :=
  match tags with
  | [] => idx
  | t :: ts => addTags (idx.add t key) ts key

/-- The `for (tag : tags) index.remove(tag, key)` loops of the delete paths. -/
def removeTags (idx : SecondaryIndex) (tags : List String) (key : String) : SecondaryIndex :=
  match tags with
  | [] => idx
  | t :: ts => removeTags (idx.remove t key) ts key

/-- `update_volume`/`update_dataset` first loop: remove each old tag that
is no longer present in the new tag set. -/
def removeStaleTags (idx : SecondaryIndex) (old_tags new_tags : List String)
    (key : String) : SecondaryIndex :=
  match old_tags with
  | [] => idx
  | t :: ts =>
    removeStaleTags (if t ∈ new_tags then idx else idx.remove t key) ts new_tags key

/-- `update_volume`/`update_dataset` second loop: add each new tag that was
not present in the old tag set. -/
def addNewTags (idx : SecondaryIndex) (new_tags old_tags : List String)
    (key : String) : SecondaryIndex :=
  match new_tags with
  | [] => idx
  | t :: ts =>
    addNewTags (if t ∈ old_tags then idx else idx.add t key) ts old_tags key

/-! ## The catalog engine state (`TMSSystem`, tms_system.h)

The state is the lock-protected data of `TMSSystem`: the two primary maps
and the five secondary indices.  The audit log is kept in the separate
`AuditLog` structure it is in the source; paths, logging, snapshots,
quotas and metrics do not interact with the catalog algorithms. -/

structure TMSSystem where
  volumes : List (String × TapeVolume) := []
  datasets : List (String × Dataset) := []
  volume_owner_index : SecondaryIndex := []
  volume_pool_index : SecondaryIndex := []
  volume_tag_index : SecondaryIndex := []
  dataset_owner_index : SecondaryIndex := []
  dataset_tag_index : SecondaryIndex := []
  deriving DecidableEq, Repr

/-- A freshly constructed system with an empty catalog. -/
def emptySystem : TMSSystem := {}

/-- The externally configured entity-count limits
(`Configuration::get_max_volumes` / `get_max_datasets`). -/
structure Config where
  max_volumes : Nat := 100000
  max_datasets : Nat := 1000000
  deriving DecidableEq, Repr

/-! ## Volume management (tms_tape_mgmt.cpp) -/

/-- The defaulting block of `TMSSystem::add_volume` (lines 138–147):
missing creation date, expiration date and capacity are filled in. -/
def volume_with_defaults (now : Nat) (volume : TapeVolume) : TapeVolume :=
  let v1 := if volume.creation_date = 0 then { volume with creation_date := now } else volume
  let v2 := if v1.expiration_date = 0 then
    { v1 with expiration_date := v1.creation_date + 24 * 365 * 3600 } else v1
  if v2.capacity_bytes = 0 then
    { v2 with capacity_bytes := get_density_capacity v2.density } else v2

/-- The mutation performed by a successful `TMSSystem::add_volume`:
primary-map insertion plus the three volume-index additions. -/
def add_volume_apply (now : Nat) (sys : TMSSystem) (volume : TapeVolume) : TMSSystem :=
  { sys with
    volumes := mInsert sys.volumes volume.volser (volume_with_defaults now volume),
    volume_owner_index :=
      sys.volume_owner_index.add (volume_with_defaults now volume).owner volume.volser,
    volume_pool_index :=
      sys.volume_pool_index.add (volume_with_defaults now volume).pool volume.volser,
    volume_tag_index :=
      addTags sys.volume_tag_index (volume_with_defaults now volume).tags volume.volser }

/-- `TMSSystem::add_volume`. -/
def add_volume (cfg : Config) (now : Nat) (sys : TMSSystem) (volume : TapeVolume) :
    Except ErrorInfo TMSSystem :=
  if ¬ validate_volser volume.volser then
    .error ⟨.INVALID_VOLSER, "Invalid volume serial: " ++ volume.volser⟩
  else if cfg.max_volumes ≤ sys.volumes.length then
    .error ⟨.VOLUME_LIMIT_REACHED, "Maximum volume limit reached"⟩
  else if (mLookup sys.volumes volume.volser).isSome then
    .error ⟨.VOLUME_ALREADY_EXISTS, "Volume already exists: " ++ volume.volser⟩
  else
    .ok (add_volume_apply now sys volume)

/-- The force-delete cascade of `TMSSystem::delete_volume` (lines
199–210): each dataset named in the volume's list is removed from the
dataset indices and the primary dataset map. -/
def cascade_delete_datasets : TMSSystem → List String → TMSSystem
  | sys, [] => sys
  | sys, ds_name :: rest =>
    cascade_delete_datasets
      (match mLookup sys.datasets ds_name with
       | none => sys
       | some ds =>
         { sys with
           dataset_owner_index := sys.dataset_owner_index.remove ds.owner ds_name,
           dataset_tag_index := removeTags sys.dataset_tag_index ds.tags ds_name,
           datasets := mErase sys.datasets ds_name }) rest

/-- The mutation performed by a successful `TMSSystem::delete_volume`. -/
def delete_volume_apply (sys : TMSSystem) (vol : TapeVolume) (volser : String)
    (force : Bool) : TMSSystem :=
  let sys1 := { sys with
    volume_owner_index := sys.volume_owner_index.remove vol.owner volser,
    volume_pool_index := sys.volume_pool_index.remove vol.pool volser,
    volume_tag_index := removeTags sys.volume_tag_index vol.tags volser }
  let sys2 := if force then cascade_delete_datasets sys1 vol.datasets else sys1
  { sys2 with volumes := mErase sys2.volumes volser }

/-- `TMSSystem::delete_volume`. -/
def delete_volume (now : Nat) (sys : TMSSystem) (volser : String) (force : Bool) :
    Except ErrorInfo TMSSystem :=
  match mLookup sys.volumes volser with
  | none => .error ⟨.VOLUME_NOT_FOUND, "Volume not found: " ++ volser⟩
  | some vol =>
    if ¬ force ∧ vol.datasets ≠ [] then
      .error ⟨.VOLUME_HAS_DATASETS,
        "Volume has " ++ toString vol.datasets.length ++ " datasets"⟩
    else if vol.status = .MOUNTED then
      .error ⟨.VOLUME_MOUNTED, "Cannot delete mounted volume"⟩
    else if vol.is_reserved now then
      .error ⟨.VOLUME_RESERVED, "Cannot delete reserved volume"⟩
    else
      .ok (delete_volume_apply sys vol volser force)

/-- The state after a `delete_volume` call, error or not: the C++ method
mutates nothing on any of its error paths, so the caller's state is the
input state. -/
def run_delete_volume (now : Nat) (sys : TMSSystem) (volser : String) (force : Bool) :
    TMSSystem :=
  match delete_volume now sys volser force with
  | .ok sys' => sys'
  | .error _ => sys

/-- `TMSSystem::update_volume`: replaces the stored record and issues the
owner/pool/tag index deltas. -/
def update_volume (sys : TMSSystem) (volume : TapeVolume) : Except ErrorInfo TMSSystem :=
  match mLookup sys.volumes volume.volser with
  | none => .error ⟨.VOLUME_NOT_FOUND, "Volume not found: " ++ volume.volser⟩
  | some old =>
    .ok { sys with
      volumes := mInsert sys.volumes volume.volser volume,
      volume_owner_index :=
        if old.owner ≠ volume.owner then
          sys.volume_owner_index.update old.owner volume.owner volume.volser
        else sys.volume_owner_index,
      volume_pool_index :=
        if old.pool ≠ volume.pool then
          sys.volume_pool_index.update old.pool volume.pool volume.volser
        else sys.volume_pool_index,
      volume_tag_index :=
        addNewTags (removeStaleTags sys.volume_tag_index old.tags volume.tags volume.volser)
          volume.tags old.tags volume.volser }

/-- `TMSSystem::get_volume`. -/
def get_volume (sys : TMSSystem) (volser : String) : Except ErrorInfo TapeVolume :=
  match mLookup sys.volumes volser with
  | none => .error ⟨.VOLUME_NOT_FOUND, "Volume not found: " ++ volser⟩
  | some vol => .ok vol

/-- `TMSSystem::get_volumes_by_owner`: indexed lookup, then resolution of
each hit against the primary map. -/
def get_volumes_by_owner (sys : TMSSystem) (owner : String) : List TapeVolume :=
  (sys.volume_owner_index.find owner).filterMap (fun volser => mLookup sys.volumes volser)

/-- `TMSSystem::get_volumes_by_pool`. -/
def get_volumes_by_pool (sys : TMSSystem) (pool : String) : List TapeVolume :=
  (sys.volume_pool_index.find pool).filterMap (fun volser => mLookup sys.volumes volser)

/-- `TMSSystem::find_volumes_by_tag`. -/
def find_volumes_by_tag (sys : TMSSystem) (tag : String) : List TapeVolume :=
  (sys.volume_tag_index.find tag).filterMap (fun volser => mLookup sys.volumes volser)

/-- `TMSSystem::get_datasets_by_owner`. -/
def get_datasets_by_owner (sys : TMSSystem) (owner : String) : List Dataset :=
  (sys.dataset_owner_index.find owner).filterMap (fun name => mLookup sys.datasets name)

/-- `TMSSystem::find_datasets_by_tag`. -/
def find_datasets_by_tag (sys : TMSSystem) (tag : String) : List Dataset :=
  (sys.dataset_tag_index.find tag).filterMap (fun name => mLookup sys.datasets name)

/-! ## Dataset management -/

/-- The defaulting block of `TMSSystem::add_dataset` (lines 450–455). -/
def dataset_with_defaults (now : Nat) (dataset : Dataset) : Dataset :=
  let d1 := if dataset.creation_date = 0 then { dataset with creation_date := now } else dataset
  if d1.expiration_date = 0 then
    { d1 with expiration_date := d1.creation_date + 24 * 30 * 3600 } else d1

/-- `TMSSystem::add_dataset`: stores the dataset, indexes it, appends it to
the owning volume's list, grows `used_bytes` (64-bit wrap-around) and
flips a SCRATCH volume to PRIVATE. -/
def add_dataset (cfg : Config) (now : Nat) (sys : TMSSystem) (dataset : Dataset) :
    Except ErrorInfo TMSSystem :=
  if ¬ validate_dataset_name dataset.name then
    .error ⟨.INVALID_DATASET_NAME, "Invalid dataset name: " ++ dataset.name⟩
  else if cfg.max_datasets ≤ sys.datasets.length then
    .error ⟨.DATASET_LIMIT_REACHED, "Maximum dataset limit reached"⟩
  else if (mLookup sys.datasets dataset.name).isSome then
    .error ⟨.DATASET_ALREADY_EXISTS, "Dataset already exists: " ++ dataset.name⟩
  else
    match mLookup sys.volumes dataset.volser with
    | none => .error ⟨.VOLUME_NOT_FOUND, "Volume not found: " ++ dataset.volser⟩
    | some vol =>
      .ok { sys with
        datasets := mInsert sys.datasets dataset.name (dataset_with_defaults now dataset),
        dataset_owner_index :=
          sys.dataset_owner_index.add (dataset_with_defaults now dataset).owner dataset.name,
        dataset_tag_index :=
          addTags sys.dataset_tag_index (dataset_with_defaults now dataset).tags dataset.name,
        volumes := mInsert sys.volumes dataset.volser
          { vol with
            datasets := vol.datasets ++ [dataset.name],
            used_bytes := (vol.used_bytes + dataset.size_bytes) % UINT64_MOD,
            status := if vol.status = .SCRATCH then .PRIVATE else vol.status } }

/-- The mutation performed by a successful `TMSSystem::delete_dataset`:
the owning volume (when it exists) loses the dataset from its list, its
`used_bytes` shrink floored at zero, and an emptied PRIVATE volume flips
back to SCRATCH; the dataset itself and its index entries are erased. -/
def delete_dataset_apply (sys : TMSSystem) (ds : Dataset) (name : String) : TMSSystem :=
  match mLookup sys.volumes ds.volser with
  | none =>
    { sys with
      dataset_owner_index := sys.dataset_owner_index.remove ds.owner name,
      dataset_tag_index := removeTags sys.dataset_tag_index ds.tags name,
      datasets := mErase sys.datasets name }
  | some vol =>
    { sys with
      volumes := mInsert sys.volumes ds.volser
        { vol with
          datasets := vol.datasets.filter (fun x => x ≠ name),
          used_bytes :=
            if ds.size_bytes ≤ vol.used_bytes then vol.used_bytes - ds.size_bytes else 0,
          status :=
            if vol.datasets.filter (fun x => x ≠ name) = [] ∧ vol.status = .PRIVATE
            then .SCRATCH else vol.status },
      dataset_owner_index := sys.dataset_owner_index.remove ds.owner name,
      dataset_tag_index := removeTags sys.dataset_tag_index ds.tags name,
      datasets := mErase sys.datasets name }

/-- `TMSSystem::delete_dataset`. -/
def delete_dataset (sys : TMSSystem) (name : String) : Except ErrorInfo TMSSystem :=
  match mLookup sys.datasets name with
  | none => .error ⟨.DATASET_NOT_FOUND, "Dataset not found: " ++ name⟩
  | some ds => .ok (delete_dataset_apply sys ds name)

/-- `TMSSystem::update_dataset`: replaces the stored record and issues the
owner/tag index deltas. -/
def update_dataset (sys : TMSSystem) (dataset : Dataset) : Except ErrorInfo TMSSystem :=
  match mLookup sys.datasets dataset.name with
  | none => .error ⟨.DATASET_NOT_FOUND, "Dataset not found: " ++ dataset.name⟩
  | some old =>
    .ok { sys with
      datasets := mInsert sys.datasets dataset.name dataset,
      dataset_owner_index :=
        if old.owner ≠ dataset.owner then
          sys.dataset_owner_index.update old.owner dataset.owner dataset.name
        else sys.dataset_owner_index,
      dataset_tag_index :=
        addNewTags (removeStaleTags sys.dataset_tag_index old.tags dataset.tags dataset.name)
          dataset.tags old.tags dataset.name }

/-! ## Volume reservation -/

/-- `TMSSystem::reserve_volume`. -/
def reserve_volume (now : Nat) (sys : TMSSystem) (volser user : String)
    (duration : Nat) : Except ErrorInfo TMSSystem :=
  match mLookup sys.volumes volser with
  | none => .error ⟨.VOLUME_NOT_FOUND, "Volume not found: " ++ volser⟩
  | some vol =>
    if vol.is_reserved now ∧ vol.reserved_by ≠ user then
      .error ⟨.VOLUME_RESERVED, "Volume reserved by: " ++ vol.reserved_by⟩
    else
      .ok { sys with
        volumes := mInsert sys.volumes volser
          { vol with reserved_by := user, reservation_expires := now + duration } }

/-- `TMSSystem::release_volume`. -/
def release_volume (now : Nat) (sys : TMSSystem) (volser user : String) :
    Except ErrorInfo TMSSystem :=
  match mLookup sys.volumes volser with
  | none => .error ⟨.VOLUME_NOT_FOUND, "Volume not found: " ++ volser⟩
  | some vol =>
    if ¬ vol.is_reserved now then
      .error ⟨.INVALID_STATE, "Volume not reserved"⟩
    else if vol.reserved_by ≠ user then
      .error ⟨.ACCESS_DENIED, "Cannot release: reserved by " ++ vol.reserved_by⟩
    else
      .ok { sys with
        volumes := mInsert sys.volumes volser
          { vol with reserved_by := "", reservation_expires := 0 } }

/-- `TMSSystem::cleanup_expired_reservations`: the explicit sweep clearing
every reservation whose expiry is not in the future. -/
def cleanup_expired_reservations (now : Nat) (sys : TMSSystem) : Nat × TMSSystem :=
  ((sys.volumes.filter
      (fun p => p.2.reserved_by ≠ "" ∧ p.2.reservation_expires ≤ now)).length,
   { sys with volumes := sys.volumes.map (fun p =>
      if p.2.reserved_by ≠ "" ∧ p.2.reservation_expires ≤ now then
        (p.1, { p.2 with reserved_by := "", reservation_expires := 0 })
      else p) })

/-! ## Scratch pool allocation -/

/-- Eligibility tested by the `allocate_scratch_volume` scan: available
for scratch, and passing the optional pool and density filters. -/
def scratch_eligible (now : Nat) (pool : String) (density : Option TapeDensity)
    (vol : TapeVolume) : Bool :=
  vol.is_available_for_scratch now
    && (pool = "" || vol.pool = pool)
    && (match density with | none => true | some d => vol.density = d)

/-- The scan of `allocate_scratch_volume`: first eligible entry in the
map's (volser-ascending) iteration order. -/
def find_scratch_volume (now : Nat) (pool : String) (density : Option TapeDensity) :
    List (String × TapeVolume) → Option (String × TapeVolume)
  | [] => none
  | (volser, vol) :: rest =>
    if scratch_eligible now pool density vol then some (volser, vol)
    else find_scratch_volume now pool density rest

/-- `TMSSystem::allocate_scratch_volume`: claims the first eligible volume
in ascending volser order, atomically making it PRIVATE. -/
def allocate_scratch_volume (now : Nat) (sys : TMSSystem) (pool : String)
    (density : Option TapeDensity) : Except ErrorInfo (String × TMSSystem) :=
  match find_scratch_volume now pool density sys.volumes with
  | some (volser, vol) =>
    .ok (volser, { sys with
      volumes := mInsert sys.volumes volser
        { vol with status := .PRIVATE, last_used := now } })
  | none => .error ⟨.NO_SCRATCH_AVAILABLE, "No scratch volumes available"⟩

/-- `TMSSystem::get_scratch_pool` with `count = 0` (no truncation): the
read-only enumeration of the same eligibility predicate. -/
def get_scratch_pool (now : Nat) (sys : TMSSystem) (pool : String) : List String :=
  (sys.volumes.filter (fun p =>
    p.2.is_available_for_scratch now && (pool = "" || p.2.pool = pool))).map (fun p => p.1)

/-! ## Batch operations -/

/-- The accumulation loop of `TMSSystem::add_volumes_batch`. -/
def add_volumes_batch_go (cfg : Config) (now : Nat) :
    TMSSystem → BatchResult → List TapeVolume → BatchResult × TMSSystem
  | sys, acc, [] => (acc, sys)
  | sys, acc, vol :: rest =>
    match add_volume cfg now sys vol with
    | .ok sys' =>
      add_volumes_batch_go cfg now sys' { acc with succeeded := acc.succeeded + 1 } rest
    | .error e =>
      add_volumes_batch_go cfg now sys
        { acc with failed := acc.failed + 1,
                   failures := acc.failures ++ [(vol.volser, e.message)] } rest

/-- `TMSSystem::add_volumes_batch`: sequential per-item application of
`add_volume`; failures are recorded and the batch continues. -/
def add_volumes_batch (cfg : Config) (now : Nat) (sys : TMSSystem)
    (volumes : List TapeVolume) : BatchResult × TMSSystem :=
  add_volumes_batch_go cfg now sys { total := volumes.length } volumes

/-! ## Audit log (tms_system.h, `AuditLog`) -/

structure AuditLog where
  records : List AuditRecord := []
  max_records : Nat := 10000
  pruned_count : Nat := 0
  deriving DecidableEq, Repr

/-- `AuditLog::AuditLog(max_records)`. -/
def AuditLog.mk_empty (max_records : Nat) : AuditLog :=
  { records := [], max_records := max_records, pruned_count := 0 }

/-- `AuditLog::prune`: drop the oldest `max_records / 5` records in one
step when that count is positive and below the current size. -/
def AuditLog.prune (log : AuditLog) : AuditLog :=
  if 0 < log.max_records / 5 ∧ log.max_records / 5 < log.records.length then
    { log with records := log.records.drop (log.max_records / 5),
               pruned_count := log.pruned_count + log.max_records / 5 }
  else log

/-- `AuditLog::add`: append, then prune if the bound is exceeded. -/
def AuditLog.add (log : AuditLog) (record : AuditRecord) : AuditLog :=
  if log.max_records < log.records.length + 1 then
    AuditLog.prune { log with records := log.records ++ [record] }
  else { log with records := log.records ++ [record] }

/-- Insertion of a whole list of records, first to last. -/
def AuditLog.add_all (log : AuditLog) : List AuditRecord → AuditLog
  | [] => log
  | r :: rest => (log.add r).add_all rest

/-! ## Helper lemmas: audit log -/

/-! ## Operation sequences over the catalog -/

/-- The dataset mutations of claim C3. -/
inductive DsOp where
  | add (d : Dataset)
  | del (name : String)
  deriving DecidableEq, Repr

/-- One `add_dataset`/`delete_dataset` call; on failure the C++ method has
mutated nothing, so the state is kept. -/
def apply_ds_op (cfg : Config) (now : Nat) (sys : TMSSystem) : DsOp → TMSSystem
  | .add d =>
    match add_dataset cfg now sys d with
    | .ok sys' => sys'
    | .error _ => sys
  | .del name =>
    match delete_dataset sys name with
    | .ok sys' => sys'
    | .error _ => sys

/-- A sequence of dataset mutations, first to last. -/
def run_ds_ops (cfg : Config) (now : Nat) (sys : TMSSystem) : List DsOp → TMSSystem
  | [] => sys
  | op :: rest => run_ds_ops cfg now (apply_ds_op cfg now sys op) rest

/-- Total size of the datasets currently stored on the given volume
(the claim's right-hand side). -/
def dsSum (datasets : List (String × Dataset)) (volser : String) : Nat :=
  ((datasets.filter (fun p => p.2.volser = volser)).map (fun p => p.2.size_bytes)).sum

/-- Total size of all stored datasets. -/
def totalDsSize (datasets : List (String × Dataset)) : Nat :=
  (datasets.map (fun p => p.2.size_bytes)).sum

/-- Total bytes requested by the `add` operations of a sequence. -/
def addSizes : List DsOp → Nat
  | [] => 0
  | .add d :: rest => d.size_bytes + addSizes rest
  | .del _ :: rest => addSizes rest

/-- Claim C3's invariant: every stored volume's `used_bytes` is the sum of
the sizes of the datasets whose `volser` field names it. -/
def CapInv (sys : TMSSystem) : Prop :=
  ∀ p ∈ sys.volumes, p.2.used_bytes = dsSum sys.datasets p.1

instance (sys : TMSSystem) : Decidable (CapInv sys) := by
  unfold CapInv
  infer_instance

/-! ## Catalog mutation sequences (claim C2) -/

/-- The add/update/delete operations on volumes and datasets that claim
C2 quantifies over; each carries the wall-clock instant the C++ call
would read where the method consults time. -/
inductive CatOp where
  | addVol (now : Nat) (v : TapeVolume)
  | updVol (v : TapeVolume)
  | delVol (now : Nat) (volser : String) (force : Bool)
  | addDs (now : Nat) (d : Dataset)
  | updDs (d : Dataset)
  | delDs (name : String)
  deriving Repr

/-- One catalog call; the C++ methods mutate nothing on their error
paths, so a failed call keeps the state. -/
def apply_cat_op (cfg : Config) (sys : TMSSystem) : CatOp → TMSSystem
  | .addVol now v =>
    match add_volume cfg now sys v with
    | .ok sys' => sys'
    | .error _ => sys
  | .updVol v =>
    match update_volume sys v with
    | .ok sys' => sys'
    | .error _ => sys
  | .delVol now volser force => run_delete_volume now sys volser force
  | .addDs now d =>
    match add_dataset cfg now sys d with
    | .ok sys' => sys'
    | .error _ => sys
  | .updDs d =>
    match update_dataset sys d with
    | .ok sys' => sys'
    | .error _ => sys
  | .delDs name =>
    match delete_dataset sys name with
    | .ok sys' => sys'
    | .error _ => sys

/-- A sequence of catalog calls, first to last. -/
def run_cat_ops (cfg : Config) (sys : TMSSystem) : List CatOp → TMSSystem
  | [] => sys
  | op :: rest => run_cat_ops cfg (apply_cat_op cfg sys op) rest

/-- Two-sided consistency of one secondary index against its primary map:
a key is listed under an attribute value iff the value is non-empty and
the stored record carries it (`attrs` lists a record's indexed values: a
singleton for owner/pool, the tag set for tags).  The non-emptiness
restriction is forced by `SecondaryIndex::add`, which skips empty
attribute values. -/
def IdxOK {β : Type} (idx : SecondaryIndex) (m : List (String × β))
    (attrs : β → List String) : Prop :=
  ∀ a k, memIdx idx a k ↔ (a ≠ "" ∧ ∃ v, mLookup m k = some v ∧ a ∈ attrs v)

/-- Claim C2's invariant over all five secondary indices. -/
def IndexInv (sys : TMSSystem) : Prop :=
  IdxOK sys.volume_owner_index sys.volumes (fun v => [v.owner]) ∧
  IdxOK sys.volume_pool_index sys.volumes (fun v => [v.pool]) ∧
  IdxOK sys.volume_tag_index sys.volumes (fun v => v.tags) ∧
  IdxOK sys.dataset_owner_index sys.datasets (fun d => [d.owner]) ∧
  IdxOK sys.dataset_tag_index sys.datasets (fun d => d.tags)

/-- The `std::map` representation invariant: every map of the state is
sorted by key. -/
def WF (sys : TMSSystem) : Prop :=
  SortedKeys sys.volumes ∧ SortedKeys sys.datasets ∧
  SortedKeys sys.volume_owner_index ∧ SortedKeys sys.volume_pool_index ∧
  SortedKeys sys.volume_tag_index ∧ SortedKeys sys.dataset_owner_index ∧
  SortedKeys sys.dataset_tag_index

/-! ## Parallel batch insertion (claim C9) -/

/-- `m` chunks of `cs` items followed by the remainder: the contiguous
index ranges `parallel_add_volumes` computes for its workers
(`start_idx = t * chunk_size`, last worker runs to the end). -/
def shardList {α : Type} (cs : Nat) : Nat → List α → List (List α)
  | 0, l => [l]
  | m + 1, l => l.take cs :: shardList cs m (l.drop cs)

/-- The shards of `TMSSystem::parallel_add_volumes`: the thread count is
clamped to the item count and `MAX_PARALLEL_OPERATIONS`, the chunk size is
`volumes.size() / thread_count`, and an empty input spawns no worker. -/
def parallel_shards (items : List TapeVolume) (thread_count : Nat) :
    List (List TapeVolume) :=
  if items = [] then []
  else
    shardList (items.length / min (min thread_count items.length) MAX_PARALLEL_OPERATIONS)
      (min (min thread_count items.length) MAX_PARALLEL_OPERATIONS - 1) items

/-- The catalog effect of one worker-side `add_volume` call: the method
takes the system lock for the whole call, and a failed call has mutated
nothing. -/
def apply_add_volume (cfg : Config) (now : Nat) (sys : TMSSystem) (v : TapeVolume) :
    TMSSystem :=
  match add_volume cfg now sys v with
  | .ok sys' => sys'
  | .error _ => sys

/-- A sequence of `add_volume` calls hitting the shared catalog, first to
last. -/
def run_add_volumes (cfg : Config) (now : Nat) (sys : TMSSystem) :
    List TapeVolume → TMSSystem
  | [] => sys
  | v :: rest => run_add_volumes cfg now (apply_add_volume cfg now sys v) rest

/-- The volumes-map component of `add_volume` (the success tests read only
the primary volume map, and only it feeds later calls' outcomes). -/
def addVol (cfg : Config) (now : Nat) (m : List (String × TapeVolume))
    (v : TapeVolume) : List (String × TapeVolume) :=
  if ¬ validate_volser v.volser then m
  else if cfg.max_volumes ≤ m.length then m
  else if (mLookup m v.volser).isSome then m
  else mInsert m v.volser (volume_with_defaults now v)

/-- `run_add_volumes` projected to the primary volume map. -/
def runAddVols (cfg : Config) (now : Nat) (m : List (String × TapeVolume)) :
    List TapeVolume → List (String × TapeVolume)
  | [] => m
  | v :: rest => runAddVols cfg now (addVol cfg now m v) rest

/-- The order in which the workers' single-item critical sections can
reach the shared catalog: each step consumes the head of one remaining
shard (items of one shard stay in program order, shards interleave
arbitrarily). -/
inductive Interleave : List (List TapeVolume) → List TapeVolume → Prop where
  | nil (ls : List (List TapeVolume)) (h : ∀ l ∈ ls, l = []) : Interleave ls []
  | step (ls : List (List TapeVolume)) (i : Nat) (x : TapeVolume)
      (rest : List TapeVolume) (l : List TapeVolume)
      (hget : ls.get? i = some (x :: rest))
      (htail : Interleave (ls.set i rest) l) : Interleave ls (x :: l)

/-! ## Index soundness (the direction of invariant 4 needed by C7) -/

/-- Every index entry points at a stored record carrying that attribute
value: `attrs` lists the indexed attribute values of a record (a
singleton for owner/pool, the tag set for tags). -/
def IdxSoundOn {β : Type} (idx : SecondaryIndex) (m : List (String × β))
    (attrs : β → List String) : Prop :=
  ∀ p ∈ idx, ∀ k ∈ p.2, ∃ v, mLookup m k = some v ∧ p.1 ∈ attrs v

instance decExLookupAttr {β : Type} (m : List (String × β)) (attrs : β → List String)
    (a k : String) : Decidable (∃ v, mLookup m k = some v ∧ a ∈ attrs v) :=
  match mLookup m k with
  | none => isFalse (by
      rintro ⟨v, hv, _⟩
      cases hv)
  | some v =>
    if hm : a ∈ attrs v then isTrue ⟨v, rfl, hm⟩
    else isFalse (by
      rintro ⟨w, hw, hm'⟩
      injection hw with he
      subst he
      exact hm hm')

instance decIdxSoundOn {β : Type} (idx : SecondaryIndex) (m : List (String × β))
    (attrs : β → List String) : Decidable (IdxSoundOn idx m attrs) := by
  unfold IdxSoundOn
  infer_instance

/-! ## Concrete states used by witnesses -/

/-- An owned, pooled, tagged scratch volume, with its index entries, for
exercising `delete_volume`. -/
def wVolOwned : TapeVolume :=
  { volser := "VOL001", status := .SCRATCH, owner := "ops", pool := "P1",
    tags := ["t1"], expiration_date := 999999 }

def wSysOwned : TMSSystem :=
  { volumes := [("VOL001", wVolOwned)],
    volume_owner_index := [("ops", ["VOL001"])],
    volume_pool_index := [("P1", ["VOL001"])],
    volume_tag_index := [("t1", ["VOL001"])] }

/-- A volume reserved by alice until time 4600. -/
def wVolReserved : TapeVolume :=
  { volser := "VOL001", reserved_by := "alice", reservation_expires := 4600 }

/-- A catalog holding only `wVolReserved`. -/
def wSysReserved : TMSSystem := { volumes := [("VOL001", wVolReserved)] }

/-- A volume whose reservation by alice lapsed at time 500. -/
def wVolStale : TapeVolume :=
  { volser := "VOL001", reserved_by := "alice", reservation_expires := 500 }

/-- A catalog holding only `wVolStale`. -/
def wSysStale : TMSSystem := { volumes := [("VOL001", wVolStale)] }

/-- A scratch volume with no datasets. -/
def wVolScratch : TapeVolume :=
  { volser := "VOL001", status := .SCRATCH, expiration_date := 999999 }

/-- A catalog holding only `wVolScratch`. -/
def wSysScratch : TMSSystem := { volumes := [("VOL001", wVolScratch)] }

/-- A dataset destined for `wVolScratch`. -/
def wDs : Dataset := { name := "DATA.SET.ONE", volser := "VOL001", size_bytes := 100 }

/-- A five-item batch whose second item duplicates the already stored
VOL001 of `wSysScratch`. -/
def wBatchVolumes : List TapeVolume :=
  [{ volser := "VOL002" }, { volser := "VOL001" }, { volser := "VOL003" },
   { volser := "VOL004" }, { volser := "VOL005" }]

/-- A volume with correct (zero) capacity bookkeeping, for C3. -/
def wVolCap : TapeVolume :=
  { volser := "VOL001", status := .SCRATCH, used_bytes := 0, datasets := [],
    expiration_date := 999999 }

/-- A one-volume catalog satisfying the capacity invariant. -/
def wSysCap : TMSSystem := { volumes := [("VOL001", wVolCap)] }

/-- Two half-range datasets whose sizes sum to exactly `2 ^ 64`. -/
def wDsBig1 : Dataset := { name := "BIG1", volser := "VOL001", size_bytes := 2 ^ 63 }

def wDsBig2 : Dataset := { name := "BIG2", volser := "VOL001", size_bytes := 2 ^ 63 }

/-- The spec's allocation example: scratch volumes A01 and B01, private
C01 (stored in ascending volser order, as `std::map` iterates them). -/
def wVolA : TapeVolume := { volser := "A01", status := .SCRATCH, expiration_date := 999999 }

def wVolB : TapeVolume := { volser := "B01", status := .SCRATCH, expiration_date := 999999 }

def wVolC : TapeVolume := { volser := "C01", status := .PRIVATE, expiration_date := 999999 }

def wSysAlloc : TMSSystem :=
  { volumes := [("A01", wVolA), ("B01", wVolB), ("C01", wVolC)] }

/-- A volume with a defaulted (empty) owner: stored by `add_volume`, but
never indexed, because `SecondaryIndex::add` skips empty values. -/
def wVolC2 : TapeVolume := { volser := "VOL001" }

/-- A fully specified owned volume (non-zero dates and capacity, so the
defaulting pass stores it verbatim). -/
def wVolC2W : TapeVolume :=
  { volser := "VOL001", owner := "ops", pool := "P1", tags := ["t1"],
    creation_date := 5, expiration_date := 999999, capacity_bytes := 100 }

/-- Two fresh volumes for the two-worker parallel-insert example. -/
def wVolC9a : TapeVolume := { volser := "VOL002" }

def wVolC9b : TapeVolume := { volser := "VOL003" }

/-! ## Lemma library: sorted maps -/

section SortedMapLemmas

variable {α : Type}

theorem sortedKeys_nil : SortedKeys ([] : List (String × α)) := List.Pairwise.nil

theorem sortedKeys_cons_iff {p : String × α} {l : List (String × α)} :
    SortedKeys (p :: l) ↔ (∀ q ∈ l, p.1 < q.1) ∧ SortedKeys l := by
  simp [SortedKeys, List.pairwise_cons]

@[simp] theorem mLookup_nil (k : String) : mLookup ([] : List (String × α)) k = none := rfl

theorem mLookup_mInsert (l : List (String × α)) (k : String) (v : α) (k' : String) :
    mLookup (mInsert l k v) k' = if k' = k then some v else mLookup l k' := by
  induction l with
  | nil => simp [mInsert, mLookup]
  | cons p rest ih =>
    obtain ⟨k₀, v₀⟩ := p
    simp only [mInsert]
    by_cases h₁ : k < k₀
    · simp only [if_pos h₁, mLookup]
    · by_cases h₂ : k = k₀
      · subst h₂
        simp only [if_neg h₁, if_pos rfl, mLookup]
        by_cases h : k' = k
        · simp [h]
        · simp [h]
      · simp only [if_neg h₁, if_neg h₂, mLookup]
        by_cases h : k' = k₀
        · subst h
          have hne : ¬ k' = k := fun hk => h₂ hk.symm
          simp [hne]
        · simp only [if_neg h]
          exact ih

theorem mLookup_eq_none_of_lt {l : List (String × α)} {k : String}
    (h : ∀ q ∈ l, k < q.1) : mLookup l k = none := by
  induction l with
  | nil => rfl
  | cons p rest ih =>
    obtain ⟨k₀, v₀⟩ := p
    have hne : ¬ k = k₀ := ne_of_lt (h (k₀, v₀) (List.mem_cons_self _ _))
    simp only [mLookup, if_neg hne]
    exact ih (fun q hq => h q (List.mem_cons_of_mem _ hq))

theorem mLookup_mErase_of_sorted {l : List (String × α)} (hs : SortedKeys l)
    (k k' : String) :
    mLookup (mErase l k) k' = if k' = k then none else mLookup l k' := by
  induction l with
  | nil => simp [mErase]
  | cons p rest ih =>
    obtain ⟨k₀, v₀⟩ := p
    have hrest : SortedKeys rest := (sortedKeys_cons_iff.mp hs).2
    have hlt : ∀ q ∈ rest, k₀ < q.1 := (sortedKeys_cons_iff.mp hs).1
    simp only [mErase]
    by_cases h₀ : k = k₀
    · subst h₀
      simp only [if_pos rfl]
      by_cases h : k' = k
      · subst h
        simp only [if_pos rfl]
        exact mLookup_eq_none_of_lt hlt
      · simp [mLookup, h]
    · simp only [if_neg h₀]
      by_cases h : k' = k₀
      · subst h
        have hne : ¬ k' = k := fun hk => h₀ hk.symm
        simp [mLookup, hne]
      · simp only [mLookup, if_neg h]
        exact ih hrest

theorem mem_mInsert_elim {l : List (String × α)} {k : String} {v : α} {q : String × α}
    (h : q ∈ mInsert l k v) : q = (k, v) ∨ q ∈ l := by
  induction l with
  | nil => simpa [mInsert] using h
  | cons p rest ih =>
    obtain ⟨k₀, v₀⟩ := p
    simp only [mInsert] at h
    by_cases h₁ : k < k₀
    · simp only [if_pos h₁] at h
      rcases List.mem_cons.mp h with h' | h'
      · exact Or.inl h'
      · exact Or.inr h'
    · by_cases h₂ : k = k₀
      · simp only [if_neg h₁, if_pos h₂] at h
        rcases List.mem_cons.mp h with h' | h'
        · exact Or.inl h'
        · exact Or.inr (List.mem_cons_of_mem _ h')
      · simp only [if_neg h₁, if_neg h₂] at h
        rcases List.mem_cons.mp h with h' | h'
        · exact Or.inr (h' ▸ List.mem_cons_self _ _)
        · rcases ih h' with h'' | h''
          · exact Or.inl h''
          · exact Or.inr (List.mem_cons_of_mem _ h'')

theorem mInsert_sorted {l : List (String × α)} (hs : SortedKeys l) (k : String) (v : α) :
    SortedKeys (mInsert l k v) := by
  induction l with
  | nil =>
    simp only [mInsert]
    exact sortedKeys_cons_iff.mpr ⟨fun q hq => absurd hq (List.not_mem_nil q), sortedKeys_nil⟩
  | cons p rest ih =>
    obtain ⟨k₀, v₀⟩ := p
    have hrest : SortedKeys rest := (sortedKeys_cons_iff.mp hs).2
    have hlt : ∀ q ∈ rest, k₀ < q.1 := (sortedKeys_cons_iff.mp hs).1
    simp only [mInsert]
    by_cases h₁ : k < k₀
    · simp only [if_pos h₁]
      refine sortedKeys_cons_iff.mpr ⟨?_, hs⟩
      intro q hq
      rcases List.mem_cons.mp hq with h | h
      · exact h ▸ h₁
      · exact lt_trans h₁ (hlt q h)
    · by_cases h₂ : k = k₀
      · subst h₂
        simp only [if_neg h₁, if_pos rfl]
        exact sortedKeys_cons_iff.mpr ⟨hlt, hrest⟩
      · simp only [if_neg h₁, if_neg h₂]
        refine sortedKeys_cons_iff.mpr ⟨?_, ih hrest⟩
        intro q hq
        have hk₀k : k₀ < k := lt_of_le_of_ne (not_lt.mp h₁) (fun h => h₂ h.symm)
        rcases mem_mInsert_elim hq with h | h
        · exact h ▸ hk₀k
        · exact hlt q h

theorem mem_of_mem_mErase {l : List (String × α)} {k : String} {q : String × α}
    (h : q ∈ mErase l k) : q ∈ l := by
  induction l with
  | nil => cases h
  | cons p rest ih =>
    obtain ⟨k₀, v₀⟩ := p
    simp only [mErase] at h
    by_cases hk : k = k₀
    · simp only [if_pos hk] at h
      exact List.mem_cons_of_mem _ h
    · simp only [if_neg hk] at h
      rcases List.mem_cons.mp h with h' | h'
      · exact h' ▸ List.mem_cons_self _ _
      · exact List.mem_cons_of_mem _ (ih h')

theorem mErase_sorted {l : List (String × α)} (hs : SortedKeys l) (k : String) :
    SortedKeys (mErase l k) := by
  induction l with
  | nil => exact sortedKeys_nil
  | cons p rest ih =>
    obtain ⟨k₀, v₀⟩ := p
    have hrest : SortedKeys rest := (sortedKeys_cons_iff.mp hs).2
    have hlt : ∀ q ∈ rest, k₀ < q.1 := (sortedKeys_cons_iff.mp hs).1
    simp only [mErase]
    by_cases h : k = k₀
    · simp only [if_pos h]; exact hrest
    · simp only [if_neg h]
      refine sortedKeys_cons_iff.mpr ⟨?_, ih hrest⟩
      intro q hq
      exact hlt q (mem_of_mem_mErase hq)

theorem mLookup_length_le (l : List (String × α)) (k : String) (v : α) :
    (mInsert l k v).length ≤ l.length + 1 := by
  induction l with
  | nil => simp [mInsert]
  | cons p rest ih =>
    obtain ⟨k₀, v₀⟩ := p
    simp only [mInsert]
    by_cases h₁ : k < k₀
    · simp [h₁]
    · by_cases h₂ : k = k₀
      · simp [h₁, h₂]
      · simp only [if_neg h₁, if_neg h₂, List.length_cons]
        omega

theorem mInsert_length_of_fresh {l : List (String × α)} {k : String}
    (h : mLookup l k = none) (v : α) :
    (mInsert l k v).length = l.length + 1 := by
  induction l with
  | nil => simp [mInsert]
  | cons p rest ih =>
    obtain ⟨k₀, v₀⟩ := p
    simp only [mLookup] at h
    by_cases hk : k = k₀
    · simp [hk] at h
    · simp only [if_neg hk] at h
      simp only [mInsert]
      by_cases h₁ : k < k₀
      · simp [h₁]
      · simp [h₁, hk, ih h]

theorem mLookup_eq_some_of_mem {l : List (String × α)} (hs : SortedKeys l)
    {k : String} {v : α} (h : (k, v) ∈ l) : mLookup l k = some v := by
  induction l with
  | nil => cases h
  | cons p rest ih =>
    obtain ⟨k₀, v₀⟩ := p
    rcases List.mem_cons.mp h with h' | h'
    · have h₁ : k = k₀ := congrArg Prod.fst h'
      have h₂ : v = v₀ := congrArg Prod.snd h'
      simp [mLookup, h₁, h₂]
    · have hlt : k₀ < k := (sortedKeys_cons_iff.mp hs).1 (k, v) h'
      have : ¬ k = k₀ := fun h => absurd (h ▸ hlt) (lt_irrefl _)
      simp only [mLookup, if_neg this]
      exact ih (sortedKeys_cons_iff.mp hs).2 h'

theorem mem_of_mLookup_eq_some {l : List (String × α)} {k : String} {v : α}
    (h : mLookup l k = some v) : (k, v) ∈ l := by
  induction l with
  | nil => simp [mLookup] at h
  | cons p rest ih =>
    obtain ⟨k₀, v₀⟩ := p
    simp only [mLookup] at h
    by_cases hk : k = k₀
    · simp only [if_pos hk, Option.some.injEq] at h
      exact List.mem_cons.mpr (Or.inl (by rw [hk, ← h]))
    · simp only [if_neg hk] at h
      exact List.mem_cons.mpr (Or.inr (ih h))

end SortedMapLemmas

/-! ## Lemma library: secondary index -/

theorem mem_setInsert (s : List String) (k₀ k : String) :
    k ∈ setInsert s k₀ ↔ k = k₀ ∨ k ∈ s := by
  unfold setInsert
  by_cases h : k₀ ∈ s
  · simp only [if_pos h]
    constructor
    · exact Or.inr
    · rintro (rfl | hk)
      · exact h
      · exact hk
  · simp [if_neg h]

theorem find_add (idx : SecondaryIndex) (a₀ k₀ a : String) :
    (idx.add a₀ k₀).find a =
      if a = a₀ ∧ a₀ ≠ "" then setInsert (idx.find a₀) k₀ else idx.find a := by
  unfold SecondaryIndex.add SecondaryIndex.find
  by_cases he : a₀ = ""
  · rw [if_pos he]
    have : ¬ (a = a₀ ∧ a₀ ≠ "") := fun hc => hc.2 he
    rw [if_neg this]
  · rw [if_neg he, mLookup_mInsert]
    by_cases ha : a = a₀
    · subst ha
      rw [if_pos rfl, if_pos ⟨rfl, he⟩, Option.getD_some]
    · rw [if_neg ha, if_neg (fun hc => ha hc.1)]

theorem memIdx_add (idx : SecondaryIndex) (a₀ k₀ a k : String) :
    memIdx (idx.add a₀ k₀) a k ↔ (a = a₀ ∧ k = k₀ ∧ a₀ ≠ "") ∨ memIdx idx a k := by
  unfold memIdx
  rw [find_add]
  by_cases hc : a = a₀ ∧ a₀ ≠ ""
  · rw [if_pos hc, mem_setInsert]
    constructor
    · rintro (rfl | h)
      · exact Or.inl ⟨hc.1, rfl, hc.2⟩
      · exact Or.inr (by rw [hc.1]; exact h)
    · rintro (⟨_, rfl, _⟩ | h)
      · exact Or.inl rfl
      · exact Or.inr (by rw [← hc.1]; exact h)
  · rw [if_neg hc]
    constructor
    · exact Or.inr
    · rintro (⟨h₁, _, h₃⟩ | h)
      · exact absurd ⟨h₁, h₃⟩ hc
      · exact h

theorem find_remove {idx : SecondaryIndex} (hs : SortedKeys idx) (a₀ k₀ a : String) :
    (idx.remove a₀ k₀).find a =
      if a = a₀ then (idx.find a₀).filter (fun x => x ≠ k₀) else idx.find a := by
  unfold SecondaryIndex.remove SecondaryIndex.find
  cases hfound : mLookup idx a₀ with
  | none =>
    by_cases ha : a = a₀
    · subst ha
      rw [if_pos rfl, hfound]
      simp
    · rw [if_neg ha]
  | some ks =>
    simp only
    by_cases hemp : ks.filter (fun x => x ≠ k₀) = []
    · rw [if_pos hemp, mLookup_mErase_of_sorted hs]
      by_cases ha : a = a₀
      · subst ha
        rw [if_pos rfl, if_pos rfl]
        simp only [Option.getD_none, Option.getD_some]
        exact hemp.symm
      · rw [if_neg ha, if_neg ha]
    · rw [if_neg hemp, mLookup_mInsert]
      by_cases ha : a = a₀
      · subst ha
        rw [if_pos rfl, if_pos rfl]
        simp [hfound]
      · rw [if_neg ha, if_neg ha]

theorem memIdx_remove {idx : SecondaryIndex} (hs : SortedKeys idx) (a₀ k₀ a k : String) :
    memIdx (idx.remove a₀ k₀) a k ↔ memIdx idx a k ∧ ¬(a = a₀ ∧ k = k₀) := by
  unfold memIdx
  rw [find_remove hs]
  by_cases ha : a = a₀
  · rw [if_pos ha, ha]
    rw [List.mem_filter]
    constructor
    · rintro ⟨h₁, h₂⟩
      refine ⟨h₁, ?_⟩
      rintro ⟨_, rfl⟩
      simp at h₂
    · rintro ⟨h₁, h₂⟩
      refine ⟨h₁, ?_⟩
      by_cases hk : k = k₀
      · exact absurd ⟨rfl, hk⟩ h₂
      · simpa using hk
  · rw [if_neg ha]
    exact ⟨fun h => ⟨h, fun hc => ha hc.1⟩, And.left⟩

theorem add_sorted {idx : SecondaryIndex} (hs : SortedKeys idx) (a₀ k₀ : String) :
    SortedKeys (idx.add a₀ k₀) := by
  unfold SecondaryIndex.add
  by_cases he : a₀ = ""
  · rw [if_pos he]; exact hs
  · rw [if_neg he]; exact mInsert_sorted hs a₀ _

theorem remove_sorted {idx : SecondaryIndex} (hs : SortedKeys idx) (a₀ k₀ : String) :
    SortedKeys (idx.remove a₀ k₀) := by
  unfold SecondaryIndex.remove
  cases hfound : mLookup idx a₀ with
  | none => exact hs
  | some ks =>
    simp only
    by_cases hemp : ks.filter (fun x => x ≠ k₀) = []
    · rw [if_pos hemp]; exact mErase_sorted hs a₀
    · rw [if_neg hemp]; exact mInsert_sorted hs a₀ _


/-! ## Lemma library: audit log -/

theorem AuditLog.add_below_bound {log : AuditLog} (r : AuditRecord)
    (h : log.records.length + 1 ≤ log.max_records) :
    log.add r = { log with records := log.records ++ [r] } := by
  unfold AuditLog.add
  rw [if_neg (by omega)]

theorem AuditLog.add_all_below_bound {log : AuditLog} {recs : List AuditRecord}
    (h : log.records.length + recs.length ≤ log.max_records) :
    log.add_all recs = { log with records := log.records ++ recs } := by
  induction recs generalizing log with
  | nil => simp [AuditLog.add_all]
  | cons r rest ih =>
    unfold AuditLog.add_all
    rw [AuditLog.add_below_bound r (by simp at h; omega)]
    rw [ih (by simp; simp at h; omega)]
    simp

theorem AuditLog.add_all_append (log : AuditLog) (l₁ l₂ : List AuditRecord) :
    log.add_all (l₁ ++ l₂) = (log.add_all l₁).add_all l₂ := by
  induction l₁ generalizing log with
  | nil => simp [AuditLog.add_all]
  | cons r rest ih => simp [AuditLog.add_all, ih]

theorem AuditLog.add_overflow {log : AuditLog} (r : AuditRecord)
    (h : log.records.length = log.max_records) :
    (log.add r).records.length = log.max_records + 1 - log.max_records / 5 ∧
    (log.add r).pruned_count = log.pruned_count + log.max_records / 5 := by
  unfold AuditLog.add AuditLog.prune
  rw [if_pos (by omega)]
  by_cases h5 : log.max_records / 5 = 0
  · rw [if_neg (by simp only [not_and]; intro hc; omega)]
    simp [h5, h]
  · have h5p : 0 < log.max_records / 5 := Nat.pos_of_ne_zero h5
    have hle : log.max_records / 5 ≤ log.max_records := Nat.div_le_self _ 5
    rw [if_pos ⟨h5p, by simp only [List.length_append, List.length_singleton]; omega⟩]
    refine ⟨?_, rfl⟩
    simp only [List.length_drop, List.length_append, List.length_singleton, h]

theorem audit_pruning_aux (max_records : Nat) (recs : List AuditRecord)
    (h : recs.length = max_records + 1) :
    ((AuditLog.mk_empty max_records).add_all recs).records.length
        = max_records + 1 - max_records / 5 ∧
    ((AuditLog.mk_empty max_records).add_all recs).pruned_count = max_records / 5 := by
  have hne : recs ≠ [] := by
    intro hc
    rw [hc] at h
    simp at h
  have hsplit : recs.dropLast ++ [recs.getLast hne] = recs :=
    List.dropLast_append_getLast hne
  have hlen : recs.dropLast.length = max_records := by
    rw [List.length_dropLast, h]
    omega
  have h1 : (AuditLog.mk_empty max_records).add_all recs
      = ({ records := recs.dropLast, max_records := max_records, pruned_count := 0 }
          : AuditLog).add (recs.getLast hne) := by
    have h0 := congrArg (fun l => (AuditLog.mk_empty max_records).add_all l) hsplit
    simp only at h0
    rw [← h0, AuditLog.add_all_append]
    rw [@AuditLog.add_all_below_bound (AuditLog.mk_empty max_records) recs.dropLast
      (by simp [AuditLog.mk_empty, hlen])]
    simp [AuditLog.mk_empty, AuditLog.add_all]
  rw [h1]
  have h2 := @AuditLog.add_overflow
    ({ records := recs.dropLast, max_records := max_records, pruned_count := 0 } : AuditLog)
    (recs.getLast hne) (by simpa using hlen)
  simpa using h2

/-! ## Claim C4: audit pruning -/

/-- Claim C4, corrected.  Starting from an empty audit log with capacity
`max_records`, inserting `max_records + 1` audit records leaves the log
holding exactly `max_records + 1 - max_records / 5` records (one more
than the `max_records - max_records / 5` the claim states) and increments
`pruned_count` by exactly `max_records / 5`. -/
theorem C4_audit_pruning (max_records : Nat) (recs : List AuditRecord)
    (h : recs.length = max_records + 1) :
    ((AuditLog.mk_empty max_records).add_all recs).records.length
        = max_records + 1 - max_records / 5 ∧
    ((AuditLog.mk_empty max_records).add_all recs).pruned_count = max_records / 5 :=
  audit_pruning_aux max_records recs h

/-- Witness for C4 at `max_records = 10`: eleven insertions leave
`9 = 10 + 1 - 10 / 5` records and `pruned_count = 2`. -/
theorem C4_audit_pruning_witness :
    (List.replicate 11 ({} : AuditRecord)).length = 10 + 1 ∧
    (((AuditLog.mk_empty 10).add_all (List.replicate 11 {})).records.length
        = 10 + 1 - 10 / 5 ∧
     ((AuditLog.mk_empty 10).add_all (List.replicate 11 {})).pruned_count = 10 / 5) :=
  ⟨by decide, C4_audit_pruning 10 (List.replicate 11 {}) (by decide)⟩

/-- Counterexample to C4 as stated: with `max_records = 10`, inserting 11
records leaves 9 records, not `10 - 10 / 5 = 8`. -/
theorem C4_audit_pruning_counterexample :
    ((AuditLog.mk_empty 10).add_all (List.replicate 11 {})).records.length ≠ 10 - 10 / 5 := by
  decide

/-! ## Field-preservation lemmas for the defaulting helpers -/

theorem volume_with_defaults_fields (now : Nat) (v : TapeVolume) :
    (volume_with_defaults now v).volser = v.volser ∧
    (volume_with_defaults now v).status = v.status ∧
    (volume_with_defaults now v).density = v.density ∧
    (volume_with_defaults now v).pool = v.pool ∧
    (volume_with_defaults now v).owner = v.owner ∧
    (volume_with_defaults now v).used_bytes = v.used_bytes ∧
    (volume_with_defaults now v).datasets = v.datasets ∧
    (volume_with_defaults now v).tags = v.tags ∧
    (volume_with_defaults now v).reserved_by = v.reserved_by ∧
    (volume_with_defaults now v).reservation_expires = v.reservation_expires := by
  by_cases h1 : v.creation_date = 0 <;> by_cases h2 : v.expiration_date = 0 <;>
    by_cases h3 : v.capacity_bytes = 0 <;>
    simp [volume_with_defaults, h1, h2, h3]

theorem dataset_with_defaults_fields (now : Nat) (d : Dataset) :
    (dataset_with_defaults now d).name = d.name ∧
    (dataset_with_defaults now d).volser = d.volser ∧
    (dataset_with_defaults now d).status = d.status ∧
    (dataset_with_defaults now d).size_bytes = d.size_bytes ∧
    (dataset_with_defaults now d).owner = d.owner ∧
    (dataset_with_defaults now d).tags = d.tags := by
  by_cases h1 : d.creation_date = 0 <;> by_cases h2 : d.expiration_date = 0 <;>
    simp [dataset_with_defaults, h1, h2]

/-! ## Claim C5: reservation exclusivity -/

/-- Claim C5, corrected.  While user A holds an unexpired reservation on a
volume: reserve by B ≠ A fails — with error code `VOLUME_RESERVED`, not the
`ACCESS_DENIED` the claim states; release by B fails with `ACCESS_DENIED`;
release by A succeeds and clears both `reserved_by` and
`reservation_expires`; afterwards reserve by B succeeds and installs B's
reservation. -/
theorem C5_reservation_exclusivity
    (sys : TMSSystem) (volser A B : String) (vol : TapeVolume)
    (now now2 dur dur2 : Nat)
    (hlook : mLookup sys.volumes volser = some vol)
    (hheld : vol.reserved_by = A) (hA : A ≠ "")
    (hunexp : now < vol.reservation_expires)
    (hAB : B ≠ A) :
    reserve_volume now sys volser B dur
        = .error ⟨.VOLUME_RESERVED, "Volume reserved by: " ++ A⟩ ∧
    release_volume now sys volser B
        = .error ⟨.ACCESS_DENIED, "Cannot release: reserved by " ++ A⟩ ∧
    release_volume now sys volser A
        = .ok { sys with
            volumes := mInsert sys.volumes volser
              { vol with reserved_by := "", reservation_expires := 0 } } ∧
    reserve_volume now2
        { sys with
          volumes := mInsert sys.volumes volser
            { vol with reserved_by := "", reservation_expires := 0 } } volser B dur2
        = .ok { sys with
            volumes := mInsert (mInsert sys.volumes volser
                { vol with reserved_by := "", reservation_expires := 0 }) volser
              { vol with reserved_by := B, reservation_expires := now2 + dur2 } } := by
  have hres : vol.is_reserved now = true := by
    unfold TapeVolume.is_reserved
    simp [hheld, hA]
    omega
  refine ⟨?_, ?_, ?_, ?_⟩
  · unfold reserve_volume
    rw [hlook]
    simp only
    rw [if_pos ⟨hres, by rw [hheld]; exact fun h => hAB h.symm⟩, hheld]
  · unfold release_volume
    rw [hlook]
    simp only
    rw [if_neg (by rw [hres]; exact fun h => h rfl),
        if_pos (by rw [hheld]; exact fun h => hAB h.symm), hheld]
  · unfold release_volume
    rw [hlook]
    simp only
    rw [if_neg (by rw [hres]; exact fun h => h rfl), if_neg (by rw [hheld]; simp)]
  · have hlook2 : mLookup (mInsert sys.volumes volser
        { vol with reserved_by := "", reservation_expires := 0 }) volser
        = some { vol with reserved_by := "", reservation_expires := 0 } := by
      rw [mLookup_mInsert, if_pos rfl]
    have hcond : ¬ (({ vol with reserved_by := "", reservation_expires := 0 }
        : TapeVolume).is_reserved now2 = true ∧
        ({ vol with reserved_by := "", reservation_expires := 0 }
          : TapeVolume).reserved_by ≠ B) := by
      unfold TapeVolume.is_reserved
      simp
    unfold reserve_volume
    simp only
    rw [hlook2]
    simp only
    rw [if_neg hcond]

/-- Witness for C5: a concrete catalog where VOL001 is reserved by alice
until time 4600, queried at time 1000 with bob as the second user. -/
theorem C5_reservation_exclusivity_witness :
    mLookup wSysReserved.volumes "VOL001" = some wVolReserved ∧
    reserve_volume 1000 wSysReserved "VOL001" "bob" 3600
      = .error ⟨.VOLUME_RESERVED, "Volume reserved by: " ++ "alice"⟩ := by
  refine ⟨by decide, ?_⟩
  exact (C5_reservation_exclusivity wSysReserved "VOL001" "alice" "bob" wVolReserved
    1000 5000 3600 3600 (by decide) (by decide) (by decide) (by decide) (by decide)).1

/-- Counterexample to C5 as stated: the failing reserve carries error code
`VOLUME_RESERVED`, which is not `ACCESS_DENIED`. -/
theorem C5_reservation_exclusivity_counterexample :
    ∃ e : ErrorInfo,
      reserve_volume 1000 wSysReserved "VOL001" "bob" 3600 = .error e ∧
      e.code = .VOLUME_RESERVED ∧ e.code ≠ .ACCESS_DENIED := by
  refine ⟨⟨.VOLUME_RESERVED, "Volume reserved by: alice"⟩, ?_, rfl, by decide⟩
  rfl

/-! ## Claim C10: an expired reservation never blocks a new reserve -/

/-- Claim C10, confirmed.  If a volume's reservation is stale —
`reserved_by` non-empty but `reservation_expires ≤ now` — then
`reserve_volume` by a different user succeeds directly (no prior
`cleanup_expired_reservations` call) and overwrites the stale holder. -/
theorem C10_stale_reservation_overwrite
    (sys : TMSSystem) (volser A B : String) (vol : TapeVolume) (now dur : Nat)
    (hlook : mLookup sys.volumes volser = some vol)
    (hheld : vol.reserved_by = A) (hA : A ≠ "")
    (hexp : vol.reservation_expires ≤ now)
    (hAB : B ≠ A) :
    reserve_volume now sys volser B dur
      = .ok { sys with
          volumes := mInsert sys.volumes volser
            { vol with reserved_by := B, reservation_expires := now + dur } } := by
  have hcond : ¬ (vol.is_reserved now = true ∧ vol.reserved_by ≠ B) := by
    intro hc
    have h1 := hc.1
    unfold TapeVolume.is_reserved at h1
    simp at h1
    omega
  unfold reserve_volume
  rw [hlook]
  simp only
  rw [if_neg hcond]

/-- Witness for C10: VOL001's reservation by alice expired at time 500;
bob's reserve at time 1000 succeeds and overwrites it. -/
theorem C10_stale_reservation_overwrite_witness :
    reserve_volume 1000 wSysStale "VOL001" "bob" 3600
      = .ok { wSysStale with
          volumes := mInsert wSysStale.volumes "VOL001"
            { wVolStale with reserved_by := "bob", reservation_expires := 1000 + 3600 } } :=
  C10_stale_reservation_overwrite wSysStale "VOL001" "alice" "bob" wVolStale
    1000 3600 (by decide) (by decide) (by decide) (by decide) (by decide)

/-! ## Claim C6: add/delete dataset round-trips the volume lifecycle -/

/-- Claim C6, confirmed.  For a stored volume with status SCRATCH and no
datasets, a successful `add_dataset` of a dataset D on it leaves the
volume PRIVATE, and the subsequent `delete_dataset D` (no other datasets
on the volume) returns it to SCRATCH. -/
theorem C6_lifecycle_roundtrip
    (cfg : Config) (now : Nat) (sys : TMSSystem) (ds : Dataset) (vol : TapeVolume)
    (hlook : mLookup sys.volumes ds.volser = some vol)
    (hstatus : vol.status = .SCRATCH)
    (hempty : vol.datasets = [])
    (hvalid : validate_dataset_name ds.name = true)
    (hlimit : sys.datasets.length < cfg.max_datasets)
    (hfresh : mLookup sys.datasets ds.name = none) :
    ∃ sys₁, add_dataset cfg now sys ds = .ok sys₁
      ∧ (mLookup sys₁.volumes ds.volser).map TapeVolume.status = some .PRIVATE
      ∧ ∃ sys₂, delete_dataset sys₁ ds.name = .ok sys₂
        ∧ (mLookup sys₂.volumes ds.volser).map TapeVolume.status = some .SCRATCH := by
  obtain ⟨hdname, hdvolser, hdstatus, hdsize, hdowner, hdtags⟩ :=
    dataset_with_defaults_fields now ds
  unfold add_dataset
  rw [if_neg (by rw [hvalid]; simp), if_neg (by omega),
      if_neg (by rw [hfresh]; simp), hlook]
  simp only
  refine ⟨_, rfl, ?_, ?_⟩
  · simp only
    rw [mLookup_mInsert, if_pos rfl]
    simp [hstatus]
  · unfold delete_dataset
    simp only
    rw [mLookup_mInsert, if_pos rfl]
    simp only
    refine ⟨_, rfl, ?_⟩
    unfold delete_dataset_apply
    rw [hdvolser]
    simp only
    rw [mLookup_mInsert, if_pos rfl]
    simp only
    rw [mLookup_mInsert, if_pos rfl]
    simp [hempty, hstatus]

/-! ## Claim C8: sequential batch accounting -/

theorem batch_go_total (cfg : Config) (now : Nat) (sys : TMSSystem) (acc : BatchResult)
    (volumes : List TapeVolume) :
    (add_volumes_batch_go cfg now sys acc volumes).1.total = acc.total := by
  induction volumes generalizing sys acc with
  | nil => rfl
  | cons vol rest ih =>
    unfold add_volumes_batch_go
    cases add_volume cfg now sys vol with
    | ok sys' => exact ih sys' _
    | error e => exact ih sys _

theorem batch_go_skipped (cfg : Config) (now : Nat) (sys : TMSSystem) (acc : BatchResult)
    (volumes : List TapeVolume) :
    (add_volumes_batch_go cfg now sys acc volumes).1.skipped = acc.skipped := by
  induction volumes generalizing sys acc with
  | nil => rfl
  | cons vol rest ih =>
    unfold add_volumes_batch_go
    cases add_volume cfg now sys vol with
    | ok sys' => exact ih sys' _
    | error e => exact ih sys _

theorem batch_go_counts (cfg : Config) (now : Nat) (sys : TMSSystem) (acc : BatchResult)
    (volumes : List TapeVolume) :
    (add_volumes_batch_go cfg now sys acc volumes).1.succeeded
        + (add_volumes_batch_go cfg now sys acc volumes).1.failed
      = acc.succeeded + acc.failed + volumes.length := by
  induction volumes generalizing sys acc with
  | nil => simp [add_volumes_batch_go]
  | cons vol rest ih =>
    unfold add_volumes_batch_go
    cases add_volume cfg now sys vol with
    | ok sys' =>
      simp only
      rw [ih sys' _]
      simp
      omega
    | error e =>
      simp only
      rw [ih sys _]
      simp
      omega

theorem batch_go_failures (cfg : Config) (now : Nat) (sys : TMSSystem) (acc : BatchResult)
    (volumes : List TapeVolume) :
    (add_volumes_batch_go cfg now sys acc volumes).1.failures.length + acc.failed
      = (add_volumes_batch_go cfg now sys acc volumes).1.failed + acc.failures.length := by
  induction volumes generalizing sys acc with
  | nil => simp [add_volumes_batch_go]; omega
  | cons vol rest ih =>
    unfold add_volumes_batch_go
    cases add_volume cfg now sys vol with
    | ok sys' =>
      simp only
      have h := ih sys' { acc with succeeded := acc.succeeded + 1 }
      simp only [BatchResult.failed, BatchResult.failures] at h
      omega
    | error e =>
      simp only
      have h := ih sys
        { acc with failed := acc.failed + 1, failures := acc.failures ++ [(vol.volser, e.message)] }
      simp only [BatchResult.failed, BatchResult.failures, List.length_append,
        List.length_singleton] at h
      omega

/-- Claim C8, confirmed.  `add_volumes_batch` applies `add_volume` to
every item and keeps going on failure: the returned `BatchResult` has
`total` = number of items, `succeeded + failed = total`, and one
`(key, message)` failure entry per failed item.  Concretely, adding five
volumes against a catalog that already holds VOL001 — the duplicate in
second position — yields `total = 5, succeeded = 4, failed = 1`, the
duplicate key with its message is in `failures`, and the items after the
failing one were still stored. -/
theorem C8_batch_partial_failure :
    (∀ (cfg : Config) (now : Nat) (sys : TMSSystem) (volumes : List TapeVolume),
      (add_volumes_batch cfg now sys volumes).1.total = volumes.length ∧
      (add_volumes_batch cfg now sys volumes).1.succeeded
          + (add_volumes_batch cfg now sys volumes).1.failed
        = (add_volumes_batch cfg now sys volumes).1.total ∧
      (add_volumes_batch cfg now sys volumes).1.failures.length
        = (add_volumes_batch cfg now sys volumes).1.failed ∧
      (add_volumes_batch cfg now sys volumes).1.skipped = 0) ∧
    (add_volumes_batch {} 10 wSysScratch wBatchVolumes).1.total = 5 ∧
    (add_volumes_batch {} 10 wSysScratch wBatchVolumes).1.succeeded = 4 ∧
    (add_volumes_batch {} 10 wSysScratch wBatchVolumes).1.failed = 1 ∧
    ("VOL001", "Volume already exists: VOL001")
        ∈ (add_volumes_batch {} 10 wSysScratch wBatchVolumes).1.failures ∧
    (mLookup (add_volumes_batch {} 10 wSysScratch wBatchVolumes).2.volumes "VOL005").isSome
      = true := by
  refine ⟨?_, by decide, by decide, by decide, by decide, by decide⟩
  intro cfg now sys volumes
  unfold add_volumes_batch
  refine ⟨batch_go_total cfg now sys _ volumes, ?_, ?_, ?_⟩
  · rw [batch_go_counts cfg now sys _ volumes, batch_go_total cfg now sys _ volumes]
    simp
  · have := batch_go_failures cfg now sys { total := volumes.length } volumes
    simp at this
    omega
  · exact batch_go_skipped cfg now sys _ volumes

/-! ## Claim C3: capacity bookkeeping -/

theorem mInsert_perm_fresh {l : List (String × α)} {k : String}
    (h : mLookup l k = none) (v : α) :
    (mInsert l k v).Perm ((k, v) :: l) := by
  induction l with
  | nil => exact List.Perm.refl _
  | cons p rest ih =>
    obtain ⟨k₀, v₀⟩ := p
    simp only [mLookup] at h
    by_cases hk : k = k₀
    · rw [if_pos hk] at h; cases h
    · rw [if_neg hk] at h
      simp only [mInsert]
      by_cases h₁ : k < k₀
      · rw [if_pos h₁]
      · rw [if_neg h₁, if_neg hk]
        exact ((ih h).cons _).trans (List.Perm.swap _ _ _)

theorem mErase_perm {l : List (String × α)} (hs : SortedKeys l) {k : String} {v : α}
    (h : mLookup l k = some v) :
    l.Perm ((k, v) :: mErase l k) := by
  induction l with
  | nil => cases h
  | cons p rest ih =>
    obtain ⟨k₀, v₀⟩ := p
    simp only [mLookup] at h
    by_cases hk : k = k₀
    · rw [if_pos hk] at h
      injection h with h
      subst hk
      subst h
      simp only [mErase, if_pos rfl]
      exact List.Perm.refl _
    · rw [if_neg hk] at h
      simp only [mErase, if_neg (fun hc => hk hc)]
      exact ((ih (sortedKeys_cons_iff.mp hs).2 h).cons _).trans (List.Perm.swap _ _ _)

theorem dsSum_perm {m₁ m₂ : List (String × Dataset)} (h : m₁.Perm m₂) (k : String) :
    dsSum m₁ k = dsSum m₂ k :=
  ((h.filter _).map _).sum_eq

theorem totalDsSize_perm {m₁ m₂ : List (String × Dataset)} (h : m₁.Perm m₂) :
    totalDsSize m₁ = totalDsSize m₂ :=
  (h.map _).sum_eq

theorem dsSum_cons (n : String) (d : Dataset) (m : List (String × Dataset)) (k : String) :
    dsSum ((n, d) :: m) k = (if d.volser = k then d.size_bytes else 0) + dsSum m k := by
  unfold dsSum
  by_cases h : d.volser = k
  · rw [if_pos h]
    rw [List.filter_cons_of_pos (by simpa using h)]
    simp
  · rw [if_neg h]
    rw [List.filter_cons_of_neg (by simpa using h)]
    simp

theorem totalDsSize_cons (n : String) (d : Dataset) (m : List (String × Dataset)) :
    totalDsSize ((n, d) :: m) = d.size_bytes + totalDsSize m := by
  simp [totalDsSize]

theorem dsSum_le_total (m : List (String × Dataset)) (k : String) :
    dsSum m k ≤ totalDsSize m := by
  induction m with
  | nil => simp [dsSum, totalDsSize]
  | cons p rest ih =>
    obtain ⟨n, d⟩ := p
    rw [dsSum_cons, totalDsSize_cons]
    by_cases h : d.volser = k
    · rw [if_pos h]; omega
    · rw [if_neg h]; omega

theorem size_le_dsSum {m : List (String × Dataset)} {n : String} {d : Dataset}
    (h : mLookup m n = some d) : d.size_bytes ≤ dsSum m d.volser := by
  have hmem : (n, d) ∈ m := mem_of_mLookup_eq_some h
  have hf : (n, d) ∈ m.filter (fun p => p.2.volser = d.volser) :=
    List.mem_filter.mpr ⟨hmem, by simp⟩
  have hm : d.size_bytes ∈ (m.filter (fun p => p.2.volser = d.volser)).map
      (fun p => p.2.size_bytes) := List.mem_map.mpr ⟨(n, d), hf, rfl⟩
  exact List.single_le_sum (fun x _ => Nat.zero_le x) _ hm

theorem add_dataset_ok_elim {cfg : Config} {now : Nat} {sys : TMSSystem} {d : Dataset}
    {sys' : TMSSystem} (h : add_dataset cfg now sys d = .ok sys') :
    validate_dataset_name d.name = true ∧
    sys.datasets.length < cfg.max_datasets ∧
    mLookup sys.datasets d.name = none ∧
    ∃ vol, mLookup sys.volumes d.volser = some vol ∧
      sys' = { sys with
        datasets := mInsert sys.datasets d.name (dataset_with_defaults now d),
        dataset_owner_index :=
          sys.dataset_owner_index.add (dataset_with_defaults now d).owner d.name,
        dataset_tag_index :=
          addTags sys.dataset_tag_index (dataset_with_defaults now d).tags d.name,
        volumes := mInsert sys.volumes d.volser
          { vol with
            datasets := vol.datasets ++ [d.name],
            used_bytes := (vol.used_bytes + d.size_bytes) % UINT64_MOD,
            status := if vol.status = .SCRATCH then .PRIVATE else vol.status } } := by
  unfold add_dataset at h
  by_cases c1 : validate_dataset_name d.name = true
  · rw [if_neg (by rw [c1]; simp)] at h
    by_cases c2 : cfg.max_datasets ≤ sys.datasets.length
    · rw [if_pos c2] at h; cases h
    · rw [if_neg c2] at h
      by_cases c3 : (mLookup sys.datasets d.name).isSome
      · rw [if_pos c3] at h; cases h
      · rw [if_neg c3] at h
        cases hfind : mLookup sys.volumes d.volser with
        | none => rw [hfind] at h; cases h
        | some vol =>
          rw [hfind] at h
          simp only at h
          refine ⟨c1, by omega, by simpa using c3, vol, rfl, (Except.ok.inj h).symm⟩
  · rw [if_pos (by simpa using c1)] at h
    cases h

theorem delete_dataset_ok_elim {sys : TMSSystem} {name : String} {sys' : TMSSystem}
    (h : delete_dataset sys name = .ok sys') :
    ∃ ds, mLookup sys.datasets name = some ds ∧ sys' = delete_dataset_apply sys ds name := by
  unfold delete_dataset at h
  cases hfind : mLookup sys.datasets name with
  | none => rw [hfind] at h; cases h
  | some ds =>
    rw [hfind] at h
    simp only at h
    exact ⟨ds, rfl, (Except.ok.inj h).symm⟩

theorem cap_step_add (cfg : Config) (now : Nat) {sys : TMSSystem} (d : Dataset)
    (hsv : SortedKeys sys.volumes) (hsd : SortedKeys sys.datasets) (hinv : CapInv sys)
    (hbound : totalDsSize sys.datasets + d.size_bytes < UINT64_MOD) :
    CapInv (apply_ds_op cfg now sys (.add d)) ∧
    SortedKeys (apply_ds_op cfg now sys (.add d)).volumes ∧
    SortedKeys (apply_ds_op cfg now sys (.add d)).datasets ∧
    totalDsSize (apply_ds_op cfg now sys (.add d)).datasets ≤
      totalDsSize sys.datasets + d.size_bytes := by
  simp only [apply_ds_op]
  cases h : add_dataset cfg now sys d with
  | error e => exact ⟨hinv, hsv, hsd, Nat.le_add_right _ _⟩
  | ok sys' =>
    obtain ⟨-, -, hfresh, vol, hvol, hsys'⟩ := add_dataset_ok_elim h
    subst hsys'
    have hfields := dataset_with_defaults_fields now d
    have hdperm : (mInsert sys.datasets d.name (dataset_with_defaults now d)).Perm
        ((d.name, dataset_with_defaults now d) :: sys.datasets) :=
      mInsert_perm_fresh hfresh _
    have hused : vol.used_bytes = dsSum sys.datasets d.volser :=
      hinv _ (mem_of_mLookup_eq_some hvol)
    have hle : dsSum sys.datasets d.volser ≤ totalDsSize sys.datasets := dsSum_le_total _ _
    have hsum : ∀ k, dsSum (mInsert sys.datasets d.name (dataset_with_defaults now d)) k =
        (if d.volser = k then d.size_bytes else 0) + dsSum sys.datasets k := by
      intro k
      rw [dsSum_perm hdperm, dsSum_cons, hfields.2.1, hfields.2.2.2.1]
    have htot : totalDsSize (mInsert sys.datasets d.name (dataset_with_defaults now d)) =
        d.size_bytes + totalDsSize sys.datasets := by
      rw [totalDsSize_perm hdperm, totalDsSize_cons, hfields.2.2.2.1]
    refine ⟨?_, mInsert_sorted hsv _ _, mInsert_sorted hsd _ _, by rw [htot]; omega⟩
    intro p hp
    obtain ⟨k, v⟩ := p
    have hlk : mLookup (mInsert sys.volumes d.volser
        { vol with
          datasets := vol.datasets ++ [d.name],
          used_bytes := (vol.used_bytes + d.size_bytes) % UINT64_MOD,
          status := if vol.status = .SCRATCH then .PRIVATE else vol.status }) k = some v :=
      mLookup_eq_some_of_mem (mInsert_sorted hsv _ _) hp
    rw [mLookup_mInsert] at hlk
    by_cases hk : k = d.volser
    · rw [if_pos hk] at hlk
      injection hlk with hlk
      subst hlk
      subst hk
      show (vol.used_bytes + d.size_bytes) % UINT64_MOD =
        dsSum (mInsert sys.datasets d.name (dataset_with_defaults now d)) d.volser
      rw [hsum, if_pos rfl, hused, Nat.mod_eq_of_lt (by omega)]
      omega
    · rw [if_neg hk] at hlk
      have hold : v.used_bytes = dsSum sys.datasets k := hinv _ (mem_of_mLookup_eq_some hlk)
      rw [hsum, if_neg (fun hc => hk hc.symm), Nat.zero_add]
      exact hold

theorem cap_step_del (cfg : Config) (now : Nat) {sys : TMSSystem} (name : String)
    (hsv : SortedKeys sys.volumes) (hsd : SortedKeys sys.datasets) (hinv : CapInv sys) :
    CapInv (apply_ds_op cfg now sys (.del name)) ∧
    SortedKeys (apply_ds_op cfg now sys (.del name)).volumes ∧
    SortedKeys (apply_ds_op cfg now sys (.del name)).datasets ∧
    totalDsSize (apply_ds_op cfg now sys (.del name)).datasets ≤
      totalDsSize sys.datasets := by
  simp only [apply_ds_op]
  cases h : delete_dataset sys name with
  | error e => exact ⟨hinv, hsv, hsd, Nat.le_refl _⟩
  | ok sys' =>
    obtain ⟨ds, hlook, hsys'⟩ := delete_dataset_ok_elim h
    subst hsys'
    have hdperm : sys.datasets.Perm ((name, ds) :: mErase sys.datasets name) :=
      mErase_perm hsd hlook
    have hsum : ∀ k, dsSum sys.datasets k =
        (if ds.volser = k then ds.size_bytes else 0) + dsSum (mErase sys.datasets name) k := by
      intro k
      rw [dsSum_perm hdperm, dsSum_cons]
    have htot : totalDsSize sys.datasets =
        ds.size_bytes + totalDsSize (mErase sys.datasets name) := by
      rw [totalDsSize_perm hdperm, totalDsSize_cons]
    unfold delete_dataset_apply
    cases hvol : mLookup sys.volumes ds.volser with
    | none =>
      refine ⟨?_, hsv, mErase_sorted hsd _, by dsimp only; omega⟩
      intro p hp
      obtain ⟨k, v⟩ := p
      show v.used_bytes = dsSum (mErase sys.datasets name) k
      have hk : ¬ ds.volser = k := by
        intro hc
        subst hc
        rw [mLookup_eq_some_of_mem hsv hp] at hvol
        cases hvol
      have hold : v.used_bytes = dsSum sys.datasets k := hinv _ hp
      have := hsum k
      rw [if_neg hk, Nat.zero_add] at this
      rw [← this]
      exact hold
    | some vol =>
      have hused : vol.used_bytes = dsSum sys.datasets ds.volser :=
        hinv _ (mem_of_mLookup_eq_some hvol)
      have hsz : ds.size_bytes ≤ vol.used_bytes := by
        rw [hused]
        exact size_le_dsSum hlook
      refine ⟨?_, mInsert_sorted hsv _ _, mErase_sorted hsd _, by dsimp only; omega⟩
      intro p hp
      obtain ⟨k, v⟩ := p
      show v.used_bytes = dsSum (mErase sys.datasets name) k
      have hlk : mLookup (mInsert sys.volumes ds.volser
          { vol with
            datasets := vol.datasets.filter (fun x => x ≠ name),
            used_bytes :=
              if ds.size_bytes ≤ vol.used_bytes then vol.used_bytes - ds.size_bytes else 0,
            status :=
              if vol.datasets.filter (fun x => x ≠ name) = [] ∧ vol.status = .PRIVATE
              then .SCRATCH else vol.status }) k = some v :=
      mLookup_eq_some_of_mem (mInsert_sorted hsv _ _) hp
      rw [mLookup_mInsert] at hlk
      by_cases hk : k = ds.volser
      · rw [if_pos hk] at hlk
        injection hlk with hlk
        subst hlk
        subst hk
        show (if ds.size_bytes ≤ vol.used_bytes then vol.used_bytes - ds.size_bytes else 0) =
          dsSum (mErase sys.datasets name) ds.volser
        rw [if_pos hsz]
        have := hsum ds.volser
        rw [if_pos rfl] at this
        omega
      · rw [if_neg hk] at hlk
        have hold : v.used_bytes = dsSum sys.datasets k :=
          hinv _ (mem_of_mLookup_eq_some hlk)
        have := hsum k
        rw [if_neg (fun hc => hk hc.symm), Nat.zero_add] at this
        rw [← this]
        exact hold

theorem cap_run (cfg : Config) (now : Nat) (ops : List DsOp) :
    ∀ sys : TMSSystem, SortedKeys sys.volumes → SortedKeys sys.datasets → CapInv sys →
      totalDsSize sys.datasets + addSizes ops < UINT64_MOD →
      CapInv (run_ds_ops cfg now sys ops) ∧
      SortedKeys (run_ds_ops cfg now sys ops).volumes ∧
      SortedKeys (run_ds_ops cfg now sys ops).datasets ∧
      totalDsSize (run_ds_ops cfg now sys ops).datasets ≤
        totalDsSize sys.datasets + addSizes ops := by
  induction ops with
  | nil =>
    intro sys hsv hsd hinv _
    exact ⟨hinv, hsv, hsd, Nat.le_add_right _ _⟩
  | cons op rest ih =>
    intro sys hsv hsd hinv hbound
    cases op with
    | add d =>
      have hbound₁ : totalDsSize sys.datasets + d.size_bytes < UINT64_MOD := by
        simp only [addSizes] at hbound
        omega
      obtain ⟨hinv₁, hsv₁, hsd₁, htot₁⟩ := cap_step_add cfg now d hsv hsd hinv hbound₁
      have hrun : run_ds_ops cfg now sys (.add d :: rest) =
          run_ds_ops cfg now (apply_ds_op cfg now sys (.add d)) rest := rfl
      have hbound₂ :
          totalDsSize (apply_ds_op cfg now sys (.add d)).datasets + addSizes rest <
            UINT64_MOD := by
        simp only [addSizes] at hbound
        omega
      obtain ⟨hinv₂, hsv₂, hsd₂, htot₂⟩ := ih _ hsv₁ hsd₁ hinv₁ hbound₂
      rw [hrun]
      refine ⟨hinv₂, hsv₂, hsd₂, ?_⟩
      simp only [addSizes]
      omega
    | del n =>
      obtain ⟨hinv₁, hsv₁, hsd₁, htot₁⟩ := cap_step_del cfg now n hsv hsd hinv
      have hrun : run_ds_ops cfg now sys (.del n :: rest) =
          run_ds_ops cfg now (apply_ds_op cfg now sys (.del n)) rest := rfl
      have hbound₂ :
          totalDsSize (apply_ds_op cfg now sys (.del n)).datasets + addSizes rest <
            UINT64_MOD := by
        simp only [addSizes] at hbound
        omega
      obtain ⟨hinv₂, hsv₂, hsd₂, htot₂⟩ := ih _ hsv₁ hsd₁ hinv₁ hbound₂
      rw [hrun]
      refine ⟨hinv₂, hsv₂, hsd₂, ?_⟩
      simp only [addSizes]
      omega

/-- Claim C3, corrected.  Along any sequence of `add_dataset` /
`delete_dataset` calls (failed calls mutate nothing) starting from a state
whose maps are sorted and whose bookkeeping is correct, every stored
volume's `used_bytes` stays equal to the sum of the `size_bytes` of the
datasets whose `volser` names it — PROVIDED the stored bytes plus all
bytes the sequence tries to add stay below `2^64`.  Without that proviso
the claim fails: `used_bytes` is a `uint64` and wraps, see the
counterexample. -/
theorem C3_capacity_bookkeeping (cfg : Config) (now : Nat) (sys : TMSSystem)
    (ops : List DsOp)
    (hsv : SortedKeys sys.volumes) (hsd : SortedKeys sys.datasets)
    (hinv : CapInv sys)
    (hbound : totalDsSize sys.datasets + addSizes ops < UINT64_MOD) :
    CapInv (run_ds_ops cfg now sys ops) :=
  (cap_run cfg now ops sys hsv hsd hinv hbound).1

/-- Witness for C3: a real add-then-delete run from a one-volume catalog
keeps the bookkeeping exact. -/
theorem C3_capacity_bookkeeping_witness :
    CapInv (run_ds_ops {} 10 wSysCap [DsOp.add wDs, DsOp.del "DATA.SET.ONE"]) :=
  C3_capacity_bookkeeping {} 10 wSysCap [DsOp.add wDs, DsOp.del "DATA.SET.ONE"]
    (by decide) (by decide) (by decide) (by decide)

/-- Counterexample to the claim as stated: adding two `2^63`-byte datasets
to one volume makes `used_bytes` wrap to `0` while the stored datasets sum
to `2^64`, so the unconditional equality is false. -/
theorem C3_capacity_bookkeeping_counterexample :
    ¬ CapInv (run_ds_ops {} 10 wSysCap [DsOp.add wDsBig1, DsOp.add wDsBig2]) := by
  decide

/-! ## Claim C9: parallel batch equivalence -/

theorem sorted_ext {l₁ l₂ : List (String × α)} (h₁ : SortedKeys l₁) (h₂ : SortedKeys l₂)
    (h : ∀ k, mLookup l₁ k = mLookup l₂ k) : l₁ = l₂ := by
  induction l₁ generalizing l₂ with
  | nil =>
    cases l₂ with
    | nil => rfl
    | cons q rest₂ =>
      obtain ⟨k₁, v₁⟩ := q
      have := h k₁
      simp [mLookup] at this
  | cons p rest ih =>
    obtain ⟨k₀, v₀⟩ := p
    cases l₂ with
    | nil =>
      have := h k₀
      simp [mLookup] at this
    | cons q rest₂ =>
      obtain ⟨k₁, v₁⟩ := q
      have hlt : ∀ r ∈ rest, k₀ < r.1 := (sortedKeys_cons_iff.mp h₁).1
      have hlt₂ : ∀ r ∈ rest₂, k₁ < r.1 := (sortedKeys_cons_iff.mp h₂).1
      have hk : k₀ = k₁ := by
        by_contra hne
        have ha : mLookup ((k₀, v₀) :: rest) k₀ = some v₀ := by simp [mLookup]
        have hb : mLookup ((k₁, v₁) :: rest₂) k₁ = some v₁ := by simp [mLookup]
        rw [h k₀] at ha
        rw [← h k₁] at hb
        have hne' : ¬ k₁ = k₀ := fun hc => hne hc.symm
        simp only [mLookup, if_neg hne] at ha
        simp only [mLookup, if_neg hne'] at hb
        have h₁' : k₁ < k₀ := hlt₂ (k₀, v₀) (mem_of_mLookup_eq_some ha)
        have h₂' : k₀ < k₁ := hlt (k₁, v₁) (mem_of_mLookup_eq_some hb)
        exact absurd h₂' (lt_asymm h₁')
      subst hk
      have hv : v₀ = v₁ := by
        have := h k₀
        simp [mLookup] at this
        exact this
      subst hv
      have htails : ∀ k, mLookup rest k = mLookup rest₂ k := by
        intro k
        by_cases hkk : k = k₀
        · subst hkk
          rw [mLookup_eq_none_of_lt hlt, mLookup_eq_none_of_lt hlt₂]
        · have := h k
          simp only [mLookup, if_neg hkk] at this
          exact this
      rw [ih (sortedKeys_cons_iff.mp h₁).2 (sortedKeys_cons_iff.mp h₂).2 htails]

theorem mInsert_comm {m : List (String × α)} (hs : SortedKeys m) {k₁ k₂ : String}
    (hne : k₁ ≠ k₂) (v₁ v₂ : α) :
    mInsert (mInsert m k₁ v₁) k₂ v₂ = mInsert (mInsert m k₂ v₂) k₁ v₁ := by
  apply sorted_ext (mInsert_sorted (mInsert_sorted hs _ _) _ _)
    (mInsert_sorted (mInsert_sorted hs _ _) _ _)
  intro k
  rw [mLookup_mInsert, mLookup_mInsert, mLookup_mInsert, mLookup_mInsert]
  by_cases h₂ : k = k₂ <;> by_cases h₁ : k = k₁
  · exact absurd (h₁.symm.trans h₂) hne
  · simp [h₂, h₁, hne, Ne.symm hne]
  · simp [h₂, h₁, hne, Ne.symm hne]
  · simp [h₂, h₁]

theorem addVol_sorted (cfg : Config) (now : Nat) {m : List (String × TapeVolume)}
    (hs : SortedKeys m) (v : TapeVolume) : SortedKeys (addVol cfg now m v) := by
  unfold addVol
  split
  · exact hs
  · split
    · exact hs
    · split
      · exact hs
      · exact mInsert_sorted hs _ _

theorem addVol_length_le (cfg : Config) (now : Nat) (m : List (String × TapeVolume))
    (v : TapeVolume) : (addVol cfg now m v).length ≤ m.length + 1 := by
  unfold addVol
  split
  · exact Nat.le_succ _
  · split
    · exact Nat.le_succ _
    · split
      · exact Nat.le_succ _
      · exact mLookup_length_le m v.volser _

theorem addVol_of_valid {cfg : Config} (now : Nat) {m : List (String × TapeVolume)}
    {v : TapeVolume} (hv : validate_volser v.volser = true)
    (hcap : m.length < cfg.max_volumes) :
    addVol cfg now m v =
      if (mLookup m v.volser).isSome then m
      else mInsert m v.volser (volume_with_defaults now v) := by
  unfold addVol
  rw [if_neg (by simp [hv]), if_neg (by omega)]

theorem addVol_comm (cfg : Config) (now : Nat) {m : List (String × TapeVolume)}
    (hs : SortedKeys m) {x y : TapeVolume} (hxy : x.volser ≠ y.volser)
    (hcap : m.length + 2 ≤ cfg.max_volumes) :
    addVol cfg now (addVol cfg now m x) y = addVol cfg now (addVol cfg now m y) x := by
  by_cases hvx : validate_volser x.volser = true
  case neg =>
    have hx : ∀ m' : List (String × TapeVolume), addVol cfg now m' x = m' := by
      intro m'
      unfold addVol
      rw [if_pos (by simpa using hvx)]
    rw [hx, hx]
  case pos =>
  by_cases hvy : validate_volser y.volser = true
  case neg =>
    have hy : ∀ m' : List (String × TapeVolume), addVol cfg now m' y = m' := by
      intro m'
      unfold addVol
      rw [if_pos (by simpa using hvy)]
    rw [hy, hy]
  case pos =>
  have hm : m.length < cfg.max_volumes := by omega
  rw [addVol_of_valid now hvx hm, addVol_of_valid now hvy hm]
  by_cases hmx : (mLookup m x.volser).isSome <;>
    by_cases hmy : (mLookup m y.volser).isSome
  · rw [if_pos hmx, if_pos hmy, addVol_of_valid now hvy hm, addVol_of_valid now hvx hm,
      if_pos hmy, if_pos hmx]
  · rw [if_pos hmx, if_neg hmy, addVol_of_valid now hvy hm, if_neg hmy,
      addVol_of_valid now hvx
        (by rw [mInsert_length_of_fresh (Option.not_isSome_iff_eq_none.mp hmy)]; omega),
      if_pos (by rw [mLookup_mInsert, if_neg hxy]; exact hmx)]
  · rw [if_neg hmx, if_pos hmy, addVol_of_valid now hvy
        (by rw [mInsert_length_of_fresh (Option.not_isSome_iff_eq_none.mp hmx)]; omega),
      if_pos (by rw [mLookup_mInsert, if_neg (fun hc => hxy hc.symm)]; exact hmy),
      addVol_of_valid now hvx hm, if_neg hmx]
  · rw [if_neg hmx, if_neg hmy,
      addVol_of_valid now hvy
        (by rw [mInsert_length_of_fresh (Option.not_isSome_iff_eq_none.mp hmx)]; omega),
      if_neg (by rw [mLookup_mInsert, if_neg (fun hc => hxy hc.symm)]; exact hmy),
      addVol_of_valid now hvx
        (by rw [mInsert_length_of_fresh (Option.not_isSome_iff_eq_none.mp hmy)]; omega),
      if_neg (by rw [mLookup_mInsert, if_neg hxy]; exact hmx),
      mInsert_comm hs hxy]

theorem runAddVols_perm (cfg : Config) (now : Nat) {l₁ l₂ : List TapeVolume}
    (hp : l₁.Perm l₂) :
    ∀ m : List (String × TapeVolume), SortedKeys m →
      (l₁.map TapeVolume.volser).Nodup →
      m.length + l₁.length ≤ cfg.max_volumes →
      runAddVols cfg now m l₁ = runAddVols cfg now m l₂ := by
  induction hp with
  | nil =>
    intro m _ _ _
    rfl
  | cons x h ih =>
    intro m hs hnd hcap
    show runAddVols cfg now (addVol cfg now m x) _ =
      runAddVols cfg now (addVol cfg now m x) _
    have hlen := addVol_length_le cfg now m x
    refine ih _ (addVol_sorted cfg now hs x) (List.nodup_cons.mp hnd).2 ?_
    simp only [List.length_cons] at hcap
    omega
  | swap x y l =>
    intro m hs hnd hcap
    have hyx : y.volser ≠ x.volser := by
      intro he
      exact (List.nodup_cons.mp hnd).1 (he ▸ List.mem_cons_self _ _)
    show runAddVols cfg now (addVol cfg now (addVol cfg now m y) x) l =
      runAddVols cfg now (addVol cfg now (addVol cfg now m x) y) l
    rw [addVol_comm cfg now hs hyx (by simp only [List.length_cons] at hcap; omega)]
  | trans h₁ h₂ ih₁ ih₂ =>
    intro m hs hnd hcap
    rw [ih₁ m hs hnd hcap,
      ih₂ m hs ((h₁.map TapeVolume.volser).nodup_iff.mp hnd)
        (by rw [← h₁.length_eq]; exact hcap)]

theorem apply_add_volume_volumes (cfg : Config) (now : Nat) (sys : TMSSystem)
    (v : TapeVolume) :
    (apply_add_volume cfg now sys v).volumes = addVol cfg now sys.volumes v := by
  unfold apply_add_volume add_volume addVol add_volume_apply
  by_cases h₁ : ¬ validate_volser v.volser
  · rw [if_pos h₁, if_pos h₁]
  · rw [if_neg h₁, if_neg h₁]
    by_cases h₂ : cfg.max_volumes ≤ sys.volumes.length
    · rw [if_pos h₂, if_pos h₂]
    · rw [if_neg h₂, if_neg h₂]
      by_cases h₃ : (mLookup sys.volumes v.volser).isSome
      · rw [if_pos h₃, if_pos h₃]
      · rw [if_neg h₃, if_neg h₃]

theorem run_add_volumes_volumes (cfg : Config) (now : Nat) (l : List TapeVolume) :
    ∀ sys : TMSSystem,
      (run_add_volumes cfg now sys l).volumes = runAddVols cfg now sys.volumes l := by
  induction l with
  | nil =>
    intro sys
    rfl
  | cons v rest ih =>
    intro sys
    show (run_add_volumes cfg now (apply_add_volume cfg now sys v) rest).volumes =
      runAddVols cfg now (addVol cfg now sys.volumes v) rest
    rw [ih, apply_add_volume_volumes]

theorem batch_go_state (cfg : Config) (now : Nat) (l : List TapeVolume) :
    ∀ (sys : TMSSystem) (acc : BatchResult),
      (add_volumes_batch_go cfg now sys acc l).2 = run_add_volumes cfg now sys l := by
  induction l with
  | nil =>
    intro sys acc
    rfl
  | cons v rest ih =>
    intro sys acc
    cases h : add_volume cfg now sys v with
    | ok sys' =>
      simp only [add_volumes_batch_go, run_add_volumes, apply_add_volume, h]
      exact ih _ _
    | error e =>
      simp only [add_volumes_batch_go, run_add_volumes, apply_add_volume, h]
      exact ih _ _

theorem shardList_flatten {β : Type} (cs : Nat) (m : Nat) :
    ∀ l : List β, (shardList cs m l).flatten = l := by
  induction m with
  | zero =>
    intro l
    show (l ++ [].flatten) = l
    simp
  | succ m ih =>
    intro l
    show l.take cs ++ (shardList cs m (l.drop cs)).flatten = l
    rw [ih, List.take_append_drop]

theorem parallel_shards_flatten (items : List TapeVolume) (k : Nat) :
    (parallel_shards items k).flatten = items := by
  unfold parallel_shards
  by_cases h : items = []
  · rw [if_pos h, h]
    rfl
  · rw [if_neg h]
    exact shardList_flatten _ _ _

theorem flatten_get_perm {β : Type} :
    ∀ (ls : List (List β)) (i : Nat) (x : β) (rest : List β),
      ls.get? i = some (x :: rest) →
      ls.flatten.Perm (x :: (ls.set i rest).flatten) := by
  intro ls
  induction ls with
  | nil =>
    intro i x rest h
    cases i <;> cases h
  | cons a t ih =>
    intro i x rest h
    cases i with
    | zero =>
      injection h with h
      subst h
      show ((x :: rest) ++ t.flatten).Perm (x :: (rest ++ t.flatten))
      exact List.Perm.refl _
    | succ i =>
      have h' : t.get? i = some (x :: rest) := h
      show (a ++ t.flatten).Perm (x :: (a ++ (t.set i rest).flatten))
      exact ((ih i x rest h').append_left a).trans List.perm_middle

theorem interleave_perm {ls : List (List TapeVolume)} {l : List TapeVolume}
    (h : Interleave ls l) : ls.flatten.Perm l := by
  induction h with
  | nil ls h =>
    rw [List.flatten_eq_nil_iff.mpr h]
  | step ls i x rest l hget htail ih =>
    exact (flatten_get_perm ls i x rest hget).trans (List.Perm.cons x ih)

/-- Claim C9.  For items with pairwise-distinct volume serials and enough
capacity headroom, every interleaving of the index ranges that
`parallel_add_volumes(items, k)` (with `k ∈ [1, #items]`) hands to its
workers leaves the shared catalog in exactly the state the sequential
`add_volumes_batch(items)` produces: each `add_volume` call runs under the
system lock, so a parallel execution is an interleaving of the shards, and
the `BatchResult` counters agree while only the order of its `failures`
list may differ (the claim itself sets the bookkeeping order aside). -/
theorem C9_parallel_batch_equivalence (cfg : Config) (now : Nat) (sys : TMSSystem)
    (items exec : List TapeVolume) (k : Nat)
    (hk1 : 1 ≤ k) (hk2 : k ≤ items.length)
    (hs : SortedKeys sys.volumes)
    (hnodup : (items.map TapeVolume.volser).Nodup)
    (hcap : sys.volumes.length + items.length ≤ cfg.max_volumes)
    (hint : Interleave (parallel_shards items k) exec) :
    (run_add_volumes cfg now sys exec).volumes =
      (add_volumes_batch cfg now sys items).2.volumes := by
  have hperm : exec.Perm items := by
    have h1 := interleave_perm hint
    rw [parallel_shards_flatten] at h1
    exact h1.symm
  rw [run_add_volumes_volumes]
  simp only [add_volumes_batch]
  rw [batch_go_state, run_add_volumes_volumes]
  exact runAddVols_perm cfg now hperm sys.volumes hs
    ((hperm.map TapeVolume.volser).nodup_iff.mpr hnodup)
    (by rw [hperm.length_eq]; exact hcap)

/-- Witness for C9: two workers insert VOL002 and VOL003 into a catalog
already holding VOL001; the interleaving that runs the second worker first
still produces the sequential batch's catalog. -/
theorem C9_parallel_batch_equivalence_witness :
    (run_add_volumes {} 0 wSysScratch [wVolC9b, wVolC9a]).volumes =
      (add_volumes_batch {} 0 wSysScratch [wVolC9a, wVolC9b]).2.volumes :=
  C9_parallel_batch_equivalence {} 0 wSysScratch [wVolC9a, wVolC9b] [wVolC9b, wVolC9a] 2
    (by decide) (by decide) (by decide) (by decide) (by decide)
    (Interleave.step _ 1 wVolC9b [] _ (by decide)
      (Interleave.step _ 0 wVolC9a [] _ (by decide)
        (Interleave.nil _ (by decide))))

/-! ## Claim C7: delete_volume -/

theorem bool_true_ite {α : Sort _} (a b : α) :
    (if (true : Bool) = true then a else b) = a := rfl

theorem bool_false_ite {α : Sort _} (a b : α) :
    (if (false : Bool) = true then a else b) = b := rfl

theorem removeTags_sorted {idx : SecondaryIndex} (hs : SortedKeys idx)
    (tags : List String) (k₀ : String) : SortedKeys (removeTags idx tags k₀) := by
  induction tags generalizing idx with
  | nil => exact hs
  | cons t ts ih => exact ih (remove_sorted hs t k₀)

theorem memIdx_removeTags {idx : SecondaryIndex} (hs : SortedKeys idx)
    (tags : List String) (k₀ a k : String) :
    memIdx (removeTags idx tags k₀) a k ↔ memIdx idx a k ∧ ¬(a ∈ tags ∧ k = k₀) := by
  induction tags generalizing idx with
  | nil => simp [removeTags]
  | cons t ts ih =>
    unfold removeTags
    rw [ih (remove_sorted hs t k₀), memIdx_remove hs]
    simp only [List.mem_cons]
    constructor
    · rintro ⟨⟨h₁, h₂⟩, h₃⟩
      refine ⟨h₁, ?_⟩
      rintro ⟨h₄ | h₄, h₅⟩
      · exact h₂ ⟨h₄, h₅⟩
      · exact h₃ ⟨h₄, h₅⟩
    · rintro ⟨h₁, h₂⟩
      refine ⟨⟨h₁, ?_⟩, ?_⟩
      · rintro ⟨h₄, h₅⟩
        exact h₂ ⟨Or.inl h₄, h₅⟩
      · rintro ⟨h₄, h₅⟩
        exact h₂ ⟨Or.inr h₄, h₅⟩

theorem sound_of_memIdx {β : Type} {idx : SecondaryIndex} {m : List (String × β)}
    {attrs : β → List String} (hsound : IdxSoundOn idx m attrs) {a k : String}
    (h : memIdx idx a k) : ∃ v, mLookup m k = some v ∧ a ∈ attrs v := by
  unfold memIdx SecondaryIndex.find at h
  cases hl : mLookup idx a with
  | none => rw [hl] at h; cases h
  | some ks =>
    rw [hl] at h
    exact hsound (a, ks) (mem_of_mLookup_eq_some hl) k h

theorem cascade_components (names : List String) (sys : TMSSystem) :
    (cascade_delete_datasets sys names).volumes = sys.volumes
    ∧ (cascade_delete_datasets sys names).volume_owner_index = sys.volume_owner_index
    ∧ (cascade_delete_datasets sys names).volume_pool_index = sys.volume_pool_index
    ∧ (cascade_delete_datasets sys names).volume_tag_index = sys.volume_tag_index := by
  induction names generalizing sys with
  | nil => exact ⟨rfl, rfl, rfl, rfl⟩
  | cons n rest ih =>
    unfold cascade_delete_datasets
    cases mLookup sys.datasets n with
    | none => exact ih sys
    | some ds => exact ih _

theorem cascade_volumes_eq (sys : TMSSystem) (names : List String) :
    (cascade_delete_datasets sys names).volumes = sys.volumes :=
  (cascade_components names sys).1

theorem cascade_owner_eq (sys : TMSSystem) (names : List String) :
    (cascade_delete_datasets sys names).volume_owner_index = sys.volume_owner_index :=
  (cascade_components names sys).2.1

theorem cascade_pool_eq (sys : TMSSystem) (names : List String) :
    (cascade_delete_datasets sys names).volume_pool_index = sys.volume_pool_index :=
  (cascade_components names sys).2.2.1

theorem cascade_tag_eq (sys : TMSSystem) (names : List String) :
    (cascade_delete_datasets sys names).volume_tag_index = sys.volume_tag_index :=
  (cascade_components names sys).2.2.2

theorem cascade_datasets_sorted {sys : TMSSystem} (hs : SortedKeys sys.datasets)
    (names : List String) : SortedKeys (cascade_delete_datasets sys names).datasets := by
  induction names generalizing sys with
  | nil => exact hs
  | cons n rest ih =>
    unfold cascade_delete_datasets
    cases mLookup sys.datasets n with
    | none => exact ih hs
    | some ds => exact ih (mErase_sorted hs n)

theorem cascade_datasets_lookup {sys : TMSSystem} (hs : SortedKeys sys.datasets)
    (names : List String) (n : String) :
    mLookup (cascade_delete_datasets sys names).datasets n
      = if n ∈ names then none else mLookup sys.datasets n := by
  induction names generalizing sys with
  | nil => simp [cascade_delete_datasets]
  | cons m rest ih =>
    unfold cascade_delete_datasets
    cases hl : mLookup sys.datasets m with
    | none =>
      rw [ih hs]
      by_cases hr : n ∈ rest
      · rw [if_pos hr, if_pos (List.mem_cons_of_mem _ hr)]
      · rw [if_neg hr]
        by_cases hm : n = m
        · rw [if_pos (by rw [hm]; exact List.mem_cons_self _ _), hm, hl]
        · rw [if_neg (by simp [hm, hr])]
    | some ds =>
      rw [ih (by simpa using mErase_sorted hs m)]
      simp only
      by_cases hr : n ∈ rest
      · rw [if_pos hr, if_pos (List.mem_cons_of_mem _ hr)]
      · rw [if_neg hr, mLookup_mErase_of_sorted hs]
        by_cases hm : n = m
        · rw [if_pos hm, if_pos (by rw [hm]; exact List.mem_cons_self _ _)]
        · rw [if_neg hm, if_neg (by simp [hm, hr])]

/-- Claim C7, confirmed.  `delete_volume(volser, force)` succeeds exactly
when the volume exists, is not MOUNTED, is not (unexpiredly) reserved,
and has no datasets unless `force`; on success the volume is gone from
the primary map (other keys untouched) and from all three volume indices,
its listed datasets are cascade-deleted when `force`, and the dataset map
is untouched otherwise; every error path leaves the catalog unchanged. -/
theorem C7_delete_volume
    (now : Nat) (sys : TMSSystem) (volser : String) (force : Bool)
    (hsv : SortedKeys sys.volumes) (hsd : SortedKeys sys.datasets)
    (hio : SortedKeys sys.volume_owner_index)
    (hip : SortedKeys sys.volume_pool_index)
    (hit : SortedKeys sys.volume_tag_index)
    (hso : IdxSoundOn sys.volume_owner_index sys.volumes (fun v => [v.owner]))
    (hsp : IdxSoundOn sys.volume_pool_index sys.volumes (fun v => [v.pool]))
    (hst : IdxSoundOn sys.volume_tag_index sys.volumes (fun v => v.tags)) :
    ((∃ sys', delete_volume now sys volser force = .ok sys') ↔
      (∃ vol, mLookup sys.volumes volser = some vol
        ∧ vol.status ≠ .MOUNTED ∧ vol.is_reserved now = false
        ∧ (vol.datasets = [] ∨ force = true))) ∧
    (∀ sys' vol, delete_volume now sys volser force = .ok sys' →
        mLookup sys.volumes volser = some vol →
      mLookup sys'.volumes volser = none
      ∧ (∀ k, k ≠ volser → mLookup sys'.volumes k = mLookup sys.volumes k)
      ∧ (∀ a, ¬ memIdx sys'.volume_owner_index a volser)
      ∧ (∀ a, ¬ memIdx sys'.volume_pool_index a volser)
      ∧ (∀ a, ¬ memIdx sys'.volume_tag_index a volser)
      ∧ (force = true → ∀ n ∈ vol.datasets, mLookup sys'.datasets n = none)
      ∧ (force = false → sys'.datasets = sys.datasets)) ∧
    (∀ e, delete_volume now sys volser force = .error e →
      run_delete_volume now sys volser force = sys) := by
  refine ⟨⟨?_, ?_⟩, ?_, ?_⟩
  · -- success implies the precondition
    rintro ⟨sys', hok⟩
    unfold delete_volume at hok
    cases hfind : mLookup sys.volumes volser with
    | none => rw [hfind] at hok; cases hok
    | some vol =>
      rw [hfind] at hok
      simp only at hok
      by_cases c1 : ¬ (force = true) ∧ vol.datasets ≠ []
      · rw [if_pos c1] at hok; cases hok
      · rw [if_neg c1] at hok
        by_cases c2 : vol.status = .MOUNTED
        · rw [if_pos c2] at hok; cases hok
        · rw [if_neg c2] at hok
          by_cases c3 : vol.is_reserved now = true
          · rw [if_pos c3] at hok; cases hok
          · refine ⟨vol, rfl, c2, by simpa using c3, ?_⟩
            by_cases hf : force = true
            · exact Or.inr hf
            · rcases not_and_or.mp c1 with h | h
              · exact absurd hf (by simpa using h)
              · exact Or.inl (by simpa using h)
  · -- the precondition implies success
    rintro ⟨vol, hlook, hnm, hnr, hde⟩
    refine ⟨delete_volume_apply sys vol volser force, ?_⟩
    unfold delete_volume
    rw [hlook]
    simp only
    have hc1 : ¬ (¬ (force = true) ∧ vol.datasets ≠ []) := by
      rintro ⟨h₁, h₂⟩
      rcases hde with h | h
      · exact h₂ h
      · exact h₁ h
    rw [if_neg hc1, if_neg hnm, if_neg (by rw [hnr]; simp)]
  · -- effects of a successful delete
    intro sys' vol hok hlook
    unfold delete_volume at hok
    rw [hlook] at hok
    simp only at hok
    by_cases c1 : ¬ (force = true) ∧ vol.datasets ≠ []
    · rw [if_pos c1] at hok; cases hok
    · rw [if_neg c1] at hok
      by_cases c2 : vol.status = .MOUNTED
      · rw [if_pos c2] at hok; cases hok
      · rw [if_neg c2] at hok
        by_cases c3 : vol.is_reserved now = true
        · rw [if_pos c3] at hok; cases hok
        · rw [if_neg c3] at hok
          have hsys' : sys' = delete_volume_apply sys vol volser force :=
            (Except.ok.inj hok).symm
          subst hsys'
          cases force with
          | true =>
            refine ⟨?_, ?_, ?_, ?_, ?_, ?_, ?_⟩ <;>
              simp only [delete_volume_apply, bool_true_ite, eq_self_iff_true, if_true,
                cascade_volumes_eq, cascade_owner_eq, cascade_pool_eq, cascade_tag_eq]
            · rw [mLookup_mErase_of_sorted hsv, if_pos rfl]
            · intro k hk
              rw [mLookup_mErase_of_sorted hsv, if_neg hk]
            · intro a ha
              rw [memIdx_remove hio] at ha
              obtain ⟨hmem, hne⟩ := ha
              obtain ⟨v, hv, hav⟩ := sound_of_memIdx hso hmem
              rw [hlook] at hv
              injection hv with hv
              subst hv
              simp at hav
              exact hne ⟨hav, rfl⟩
            · intro a ha
              rw [memIdx_remove hip] at ha
              obtain ⟨hmem, hne⟩ := ha
              obtain ⟨v, hv, hav⟩ := sound_of_memIdx hsp hmem
              rw [hlook] at hv
              injection hv with hv
              subst hv
              simp at hav
              exact hne ⟨hav, rfl⟩
            · intro a ha
              rw [memIdx_removeTags hit] at ha
              obtain ⟨hmem, hne⟩ := ha
              obtain ⟨v, hv, hav⟩ := sound_of_memIdx hst hmem
              rw [hlook] at hv
              injection hv with hv
              subst hv
              exact hne ⟨hav, rfl⟩
            · intro _ n hn
              rw [cascade_datasets_lookup (by simpa using hsd), if_pos hn]
            · intro hcontra
              cases hcontra
          | false =>
            refine ⟨?_, ?_, ?_, ?_, ?_, ?_, ?_⟩ <;>
              simp only [delete_volume_apply, bool_false_ite, Bool.false_eq_true, if_false]
            · rw [mLookup_mErase_of_sorted hsv, if_pos rfl]
            · intro k hk
              rw [mLookup_mErase_of_sorted hsv, if_neg hk]
            · intro a ha
              rw [memIdx_remove hio] at ha
              obtain ⟨hmem, hne⟩ := ha
              obtain ⟨v, hv, hav⟩ := sound_of_memIdx hso hmem
              rw [hlook] at hv
              injection hv with hv
              subst hv
              simp at hav
              exact hne ⟨hav, rfl⟩
            · intro a ha
              rw [memIdx_remove hip] at ha
              obtain ⟨hmem, hne⟩ := ha
              obtain ⟨v, hv, hav⟩ := sound_of_memIdx hsp hmem
              rw [hlook] at hv
              injection hv with hv
              subst hv
              simp at hav
              exact hne ⟨hav, rfl⟩
            · intro a ha
              rw [memIdx_removeTags hit] at ha
              obtain ⟨hmem, hne⟩ := ha
              obtain ⟨v, hv, hav⟩ := sound_of_memIdx hst hmem
              rw [hlook] at hv
              injection hv with hv
              subst hv
              exact hne ⟨hav, rfl⟩
            · intro hcontra
              cases hcontra
            · intro _
              trivial
  · -- error paths leave the state unchanged
    intro e herr
    unfold run_delete_volume
    rw [herr]

/-- Witness for C7: deleting the owned, tagged VOL001 (no datasets, not
reserved, not mounted) from its one-volume catalog. -/
theorem C7_delete_volume_witness :
    ((∃ sys', delete_volume 10 wSysOwned "VOL001" false = .ok sys') ↔
      (∃ vol, mLookup wSysOwned.volumes "VOL001" = some vol
        ∧ vol.status ≠ .MOUNTED ∧ vol.is_reserved 10 = false
        ∧ (vol.datasets = [] ∨ false = true))) ∧
    (∀ sys' vol, delete_volume 10 wSysOwned "VOL001" false = .ok sys' →
        mLookup wSysOwned.volumes "VOL001" = some vol →
      mLookup sys'.volumes "VOL001" = none
      ∧ (∀ k, k ≠ "VOL001" → mLookup sys'.volumes k = mLookup wSysOwned.volumes k)
      ∧ (∀ a, ¬ memIdx sys'.volume_owner_index a "VOL001")
      ∧ (∀ a, ¬ memIdx sys'.volume_pool_index a "VOL001")
      ∧ (∀ a, ¬ memIdx sys'.volume_tag_index a "VOL001")
      ∧ (false = true → ∀ n ∈ vol.datasets, mLookup sys'.datasets n = none)
      ∧ (false = false → sys'.datasets = wSysOwned.datasets)) ∧
    (∀ e, delete_volume 10 wSysOwned "VOL001" false = .error e →
      run_delete_volume 10 wSysOwned "VOL001" false = wSysOwned) :=
  C7_delete_volume 10 wSysOwned "VOL001" false
    (by decide) (by decide) (by decide) (by decide) (by decide)
    (by decide) (by decide) (by decide)

/-! ## Claim C2: index consistency -/

theorem addTags_sorted {idx : SecondaryIndex} (hs : SortedKeys idx)
    (tags : List String) (k₀ : String) : SortedKeys (addTags idx tags k₀) := by
  induction tags generalizing idx with
  | nil => exact hs
  | cons t ts ih => exact ih (add_sorted hs t k₀)

theorem removeStaleTags_sorted {idx : SecondaryIndex} (hs : SortedKeys idx)
    (old_tags new_tags : List String) (k₀ : String) :
    SortedKeys (removeStaleTags idx old_tags new_tags k₀) := by
  induction old_tags generalizing idx with
  | nil => exact hs
  | cons t ts ih =>
    show SortedKeys (removeStaleTags (if t ∈ new_tags then idx else idx.remove t k₀) ts new_tags k₀)
    by_cases ht : t ∈ new_tags
    · rw [if_pos ht]; exact ih hs
    · rw [if_neg ht]; exact ih (remove_sorted hs t k₀)

theorem addNewTags_sorted {idx : SecondaryIndex} (hs : SortedKeys idx)
    (new_tags old_tags : List String) (k₀ : String) :
    SortedKeys (addNewTags idx new_tags old_tags k₀) := by
  induction new_tags generalizing idx with
  | nil => exact hs
  | cons t ts ih =>
    show SortedKeys (addNewTags (if t ∈ old_tags then idx else idx.add t k₀) ts old_tags k₀)
    by_cases ht : t ∈ old_tags
    · rw [if_pos ht]; exact ih hs
    · rw [if_neg ht]; exact ih (add_sorted hs t k₀)

theorem update_ite_sorted {idx : SecondaryIndex} (hs : SortedKeys idx) (o n k₀ : String) :
    SortedKeys (if o ≠ n then idx.update o n k₀ else idx) := by
  by_cases h : o ≠ n
  · rw [if_pos h]
    exact add_sorted (remove_sorted hs o k₀) n k₀
  · rw [if_neg h]
    exact hs

theorem memIdx_add_char (idx : SecondaryIndex) (a₀ k₀ : String) :
    ∀ a k, memIdx (idx.add a₀ k₀) a k ↔
      (a ∈ [a₀] ∧ k = k₀ ∧ a ≠ "") ∨ memIdx idx a k := by
  intro a k
  rw [memIdx_add]
  simp only [List.mem_singleton]
  constructor
  · rintro (⟨h1, h2, h3⟩ | h)
    · exact Or.inl ⟨h1, h2, fun he => h3 (h1 ▸ he)⟩
    · exact Or.inr h
  · rintro (⟨h1, h2, h3⟩ | h)
    · exact Or.inl ⟨h1, h2, fun he => h3 (h1.trans he)⟩
    · exact Or.inr h

theorem memIdx_remove_char {idx : SecondaryIndex} (hs : SortedKeys idx) (a₀ k₀ : String) :
    ∀ a k, memIdx (idx.remove a₀ k₀) a k ↔
      memIdx idx a k ∧ ¬(a ∈ [a₀] ∧ k = k₀) := by
  intro a k
  rw [memIdx_remove hs]
  simp only [List.mem_singleton]

theorem memIdx_addTags (tags : List String) (k₀ : String) :
    ∀ (idx : SecondaryIndex) (a k : String),
      memIdx (addTags idx tags k₀) a k ↔
        (a ∈ tags ∧ k = k₀ ∧ a ≠ "") ∨ memIdx idx a k := by
  induction tags with
  | nil =>
    intro idx a k
    simp [addTags]
  | cons t ts ih =>
    intro idx a k
    show memIdx (addTags (idx.add t k₀) ts k₀) a k ↔ _
    rw [ih, memIdx_add]
    constructor
    · rintro (⟨h1, h2, h3⟩ | ⟨h1, h2, h3⟩ | h)
      · exact Or.inl ⟨List.mem_cons_of_mem _ h1, h2, h3⟩
      · exact Or.inl ⟨List.mem_cons.mpr (Or.inl h1), h2, fun he => h3 (h1 ▸ he)⟩
      · exact Or.inr h
    · rintro (⟨h1, h2, h3⟩ | h)
      · rcases List.mem_cons.mp h1 with he | h1'
        · exact Or.inr (Or.inl ⟨he, h2, fun hne => h3 (he.trans hne)⟩)
        · exact Or.inl ⟨h1', h2, h3⟩
      · exact Or.inr (Or.inr h)

theorem memIdx_removeStaleTags (old_tags new_tags : List String) (k₀ : String) :
    ∀ idx : SecondaryIndex, SortedKeys idx → ∀ a k,
      memIdx (removeStaleTags idx old_tags new_tags k₀) a k ↔
        memIdx idx a k ∧ ¬(a ∈ old_tags ∧ a ∉ new_tags ∧ k = k₀) := by
  induction old_tags with
  | nil =>
    intro idx hs a k
    simp [removeStaleTags]
  | cons t ts ih =>
    intro idx hs a k
    show memIdx (removeStaleTags (if t ∈ new_tags then idx else idx.remove t k₀) ts new_tags k₀) a k ↔ _
    by_cases ht : t ∈ new_tags
    · rw [if_pos ht, ih idx hs a k]
      constructor
      · rintro ⟨h1, h2⟩
        refine ⟨h1, ?_⟩
        rintro ⟨hm, hn, hk⟩
        rcases List.mem_cons.mp hm with he | hm'
        · exact hn (he.symm ▸ ht)
        · exact h2 ⟨hm', hn, hk⟩
      · rintro ⟨h1, h2⟩
        exact ⟨h1, fun hc => h2 ⟨List.mem_cons_of_mem _ hc.1, hc.2.1, hc.2.2⟩⟩
    · rw [if_neg ht, ih _ (remove_sorted hs t k₀) a k, memIdx_remove hs]
      constructor
      · rintro ⟨⟨h1, h2⟩, h3⟩
        refine ⟨h1, ?_⟩
        rintro ⟨hm, hn, hk⟩
        rcases List.mem_cons.mp hm with he | hm'
        · exact h2 ⟨he, hk⟩
        · exact h3 ⟨hm', hn, hk⟩
      · rintro ⟨h1, h2⟩
        refine ⟨⟨h1, ?_⟩, ?_⟩
        · rintro ⟨he, hk⟩
          exact h2 ⟨List.mem_cons.mpr (Or.inl he), fun hc => ht (he ▸ hc), hk⟩
        · rintro ⟨hm, hn, hk⟩
          exact h2 ⟨List.mem_cons_of_mem _ hm, hn, hk⟩

theorem memIdx_addNewTags (new_tags old_tags : List String) (k₀ : String) :
    ∀ (idx : SecondaryIndex) (a k : String),
      memIdx (addNewTags idx new_tags old_tags k₀) a k ↔
        (a ∈ new_tags ∧ a ∉ old_tags ∧ k = k₀ ∧ a ≠ "") ∨ memIdx idx a k := by
  induction new_tags with
  | nil =>
    intro idx a k
    simp [addNewTags]
  | cons t ts ih =>
    intro idx a k
    show memIdx (addNewTags (if t ∈ old_tags then idx else idx.add t k₀) ts old_tags k₀) a k ↔ _
    rw [ih]
    by_cases ht : t ∈ old_tags
    · rw [if_pos ht]
      constructor
      · rintro (⟨h1, h2, h3, h4⟩ | h)
        · exact Or.inl ⟨List.mem_cons_of_mem _ h1, h2, h3, h4⟩
        · exact Or.inr h
      · rintro (⟨h1, h2, h3, h4⟩ | h)
        · rcases List.mem_cons.mp h1 with he | h1'
          · exact absurd (he.symm ▸ ht) h2
          · exact Or.inl ⟨h1', h2, h3, h4⟩
        · exact Or.inr h
    · rw [if_neg ht, memIdx_add]
      constructor
      · rintro (⟨h1, h2, h3, h4⟩ | ⟨h1, h2, h3⟩ | h)
        · exact Or.inl ⟨List.mem_cons_of_mem _ h1, h2, h3, h4⟩
        · exact Or.inl ⟨List.mem_cons.mpr (Or.inl h1), fun hc => ht (h1 ▸ hc), h2,
            fun he => h3 (h1 ▸ he)⟩
        · exact Or.inr h
      · rintro (⟨h1, h2, h3, h4⟩ | h)
        · rcases List.mem_cons.mp h1 with he | h1'
          · exact Or.inr (Or.inl ⟨he, h3, fun hne => h4 (he.trans hne)⟩)
          · exact Or.inl ⟨h1', h2, h3, h4⟩
        · exact Or.inr (Or.inr h)

theorem memIdx_update_char {idx : SecondaryIndex} (hs : SortedKeys idx) (o n k₀ : String) :
    ∀ a k, memIdx (if o ≠ n then idx.update o n k₀ else idx) a k ↔
      (a ∈ [n] ∧ a ∉ [o] ∧ k = k₀ ∧ a ≠ "") ∨
      (memIdx idx a k ∧ ¬(a ∈ [o] ∧ a ∉ [n] ∧ k = k₀)) := by
  intro a k
  simp only [List.mem_singleton]
  by_cases hon : o ≠ n
  · rw [if_pos hon]
    unfold SecondaryIndex.update
    rw [memIdx_add, memIdx_remove hs]
    constructor
    · rintro (⟨h1, h2, h3⟩ | ⟨hm, h2⟩)
      · exact Or.inl ⟨h1, fun hc => hon (hc.symm.trans h1), h2, fun he => h3 (h1 ▸ he)⟩
      · exact Or.inr ⟨hm, fun hc => h2 ⟨hc.1, hc.2.2⟩⟩
    · rintro (⟨h1, h2, h3, h4⟩ | ⟨hm, h2⟩)
      · exact Or.inl ⟨h1, h3, fun he => h4 (h1.trans he)⟩
      · refine Or.inr ⟨hm, ?_⟩
        rintro ⟨ho, hk⟩
        by_cases hn : a = n
        · exact hon (ho.symm.trans hn)
        · exact h2 ⟨ho, hn, hk⟩
  · rw [if_neg hon]
    have he : o = n := not_not.mp (fun hc => hon hc)
    subst he
    constructor
    · intro hm
      refine Or.inr ⟨hm, ?_⟩
      rintro ⟨h1, h2, _⟩
      exact h2 h1
    · rintro (⟨h1, h2, _, _⟩ | ⟨hm, _⟩)
      · exact absurd h1 h2
      · exact hm

theorem memIdx_updTags_char {idx : SecondaryIndex} (hs : SortedKeys idx)
    (old_tags new_tags : List String) (k₀ : String) :
    ∀ a k,
      memIdx (addNewTags (removeStaleTags idx old_tags new_tags k₀) new_tags old_tags k₀) a k ↔
        (a ∈ new_tags ∧ a ∉ old_tags ∧ k = k₀ ∧ a ≠ "") ∨
        (memIdx idx a k ∧ ¬(a ∈ old_tags ∧ a ∉ new_tags ∧ k = k₀)) := by
  intro a k
  rw [memIdx_addNewTags, memIdx_removeStaleTags old_tags new_tags k₀ idx hs a k]

theorem IdxOK_insert_fresh {β : Type} {idx idx' : SecondaryIndex}
    {m : List (String × β)} {attrs : β → List String} (hinv : IdxOK idx m attrs)
    {k₀ : String} (hfresh : mLookup m k₀ = none) {w : β}
    (hchar : ∀ a k, memIdx idx' a k ↔ (a ∈ attrs w ∧ k = k₀ ∧ a ≠ "") ∨ memIdx idx a k) :
    IdxOK idx' (mInsert m k₀ w) attrs := by
  intro a k
  rw [hchar a k]
  constructor
  · rintro (⟨h1, h2, h3⟩ | hm)
    · subst h2
      exact ⟨h3, w, by rw [mLookup_mInsert, if_pos rfl], h1⟩
    · obtain ⟨h1, v, hv, ha⟩ := (hinv a k).mp hm
      have hk : ¬ k = k₀ := by
        intro hc
        subst hc
        rw [hfresh] at hv
        cases hv
      exact ⟨h1, v, by rw [mLookup_mInsert, if_neg hk]; exact hv, ha⟩
  · rintro ⟨h1, v, hv, ha⟩
    rw [mLookup_mInsert] at hv
    by_cases hk : k = k₀
    · rw [if_pos hk] at hv
      injection hv with hv
      subst hv
      exact Or.inl ⟨ha, hk, h1⟩
    · rw [if_neg hk] at hv
      exact Or.inr ((hinv a k).mpr ⟨h1, v, hv, ha⟩)

theorem IdxOK_erase {β : Type} {idx idx' : SecondaryIndex}
    {m : List (String × β)} {attrs : β → List String} (hinv : IdxOK idx m attrs)
    (hs : SortedKeys m) {k₀ : String} {v₀ : β} (hold : mLookup m k₀ = some v₀)
    (hchar : ∀ a k, memIdx idx' a k ↔ memIdx idx a k ∧ ¬(a ∈ attrs v₀ ∧ k = k₀)) :
    IdxOK idx' (mErase m k₀) attrs := by
  intro a k
  rw [hchar a k]
  by_cases hk : k = k₀
  · subst hk
    constructor
    · rintro ⟨hm, h2⟩
      obtain ⟨h1, v, hv, ha⟩ := (hinv a k).mp hm
      rw [hold] at hv
      injection hv with hv
      subst hv
      exact absurd ⟨ha, rfl⟩ h2
    · rintro ⟨h1, v, hv, ha⟩
      rw [mLookup_mErase_of_sorted hs, if_pos rfl] at hv
      cases hv
  · constructor
    · rintro ⟨hm, h2⟩
      obtain ⟨h1, v, hv, ha⟩ := (hinv a k).mp hm
      exact ⟨h1, v, by rw [mLookup_mErase_of_sorted hs, if_neg hk]; exact hv, ha⟩
    · rintro ⟨h1, v, hv, ha⟩
      rw [mLookup_mErase_of_sorted hs, if_neg hk] at hv
      exact ⟨(hinv a k).mpr ⟨h1, v, hv, ha⟩, fun hc => hk hc.2⟩

theorem IdxOK_replace {β : Type} {idx idx' : SecondaryIndex}
    {m : List (String × β)} {attrs : β → List String} (hinv : IdxOK idx m attrs)
    {k₀ : String} {vold vnew : β} (hold : mLookup m k₀ = some vold)
    (hchar : ∀ a k, memIdx idx' a k ↔
      (a ∈ attrs vnew ∧ a ∉ attrs vold ∧ k = k₀ ∧ a ≠ "") ∨
      (memIdx idx a k ∧ ¬(a ∈ attrs vold ∧ a ∉ attrs vnew ∧ k = k₀))) :
    IdxOK idx' (mInsert m k₀ vnew) attrs := by
  intro a k
  rw [hchar a k]
  constructor
  · rintro (⟨h1, h2, h3, h4⟩ | ⟨hm, h2⟩)
    · subst h3
      exact ⟨h4, vnew, by rw [mLookup_mInsert, if_pos rfl], h1⟩
    · obtain ⟨h1, v, hv, ha⟩ := (hinv a k).mp hm
      by_cases hk : k = k₀
      · subst hk
        rw [hold] at hv
        injection hv with hv
        subst hv
        by_cases hn : a ∈ attrs vnew
        · exact ⟨h1, vnew, by rw [mLookup_mInsert, if_pos rfl], hn⟩
        · exact absurd ⟨ha, hn, rfl⟩ h2
      · exact ⟨h1, v, by rw [mLookup_mInsert, if_neg hk]; exact hv, ha⟩
  · rintro ⟨h1, v, hv, ha⟩
    rw [mLookup_mInsert] at hv
    by_cases hk : k = k₀
    · rw [if_pos hk] at hv
      injection hv with hv
      subst hv
      by_cases ho : a ∈ attrs vold
      · refine Or.inr ⟨(hinv a k).mpr ⟨h1, vold, ?_, ho⟩, ?_⟩
        · rw [hk]
          exact hold
        · rintro ⟨_, hn, _⟩
          exact hn ha
      · exact Or.inl ⟨ha, ho, hk, h1⟩
    · rw [if_neg hk] at hv
      exact Or.inr ⟨(hinv a k).mpr ⟨h1, v, hv, ha⟩, fun hc => hk hc.2.2⟩

theorem IdxOK_replace_same {β : Type} {idx : SecondaryIndex}
    {m : List (String × β)} {attrs : β → List String} (hinv : IdxOK idx m attrs)
    {k₀ : String} {v v' : β} (hold : mLookup m k₀ = some v)
    (hattr : attrs v' = attrs v) :
    IdxOK idx (mInsert m k₀ v') attrs := by
  intro a k
  rw [hinv a k]
  constructor
  · rintro ⟨h1, w, hw, ha⟩
    by_cases hk : k = k₀
    · subst hk
      rw [hold] at hw
      injection hw with hw
      subst hw
      exact ⟨h1, v', by rw [mLookup_mInsert, if_pos rfl], by rw [hattr]; exact ha⟩
    · exact ⟨h1, w, by rw [mLookup_mInsert, if_neg hk]; exact hw, ha⟩
  · rintro ⟨h1, w, hw, ha⟩
    rw [mLookup_mInsert] at hw
    by_cases hk : k = k₀
    · rw [if_pos hk] at hw
      injection hw with hw
      subst hw
      refine ⟨h1, v, ?_, by rw [← hattr]; exact ha⟩
      rw [hk]
      exact hold
    · rw [if_neg hk] at hw
      exact ⟨h1, w, hw, ha⟩

theorem add_volume_ok_elim {cfg : Config} {now : Nat} {sys : TMSSystem}
    {v : TapeVolume} {sys' : TMSSystem} (h : add_volume cfg now sys v = .ok sys') :
    mLookup sys.volumes v.volser = none ∧ sys' = add_volume_apply now sys v := by
  unfold add_volume at h
  by_cases c1 : validate_volser v.volser = true
  · rw [if_neg (by rw [c1]; simp)] at h
    by_cases c2 : cfg.max_volumes ≤ sys.volumes.length
    · rw [if_pos c2] at h
      cases h
    · rw [if_neg c2] at h
      by_cases c3 : (mLookup sys.volumes v.volser).isSome
      · rw [if_pos c3] at h
        cases h
      · rw [if_neg c3] at h
        exact ⟨Option.not_isSome_iff_eq_none.mp c3, (Except.ok.inj h).symm⟩
  · rw [if_pos (by simpa using c1)] at h
    cases h

theorem update_volume_ok_elim {sys : TMSSystem} {v : TapeVolume} {sys' : TMSSystem}
    (h : update_volume sys v = .ok sys') :
    ∃ old, mLookup sys.volumes v.volser = some old ∧
      sys' = { sys with
        volumes := mInsert sys.volumes v.volser v,
        volume_owner_index :=
          if old.owner ≠ v.owner then
            sys.volume_owner_index.update old.owner v.owner v.volser
          else sys.volume_owner_index,
        volume_pool_index :=
          if old.pool ≠ v.pool then
            sys.volume_pool_index.update old.pool v.pool v.volser
          else sys.volume_pool_index,
        volume_tag_index :=
          addNewTags (removeStaleTags sys.volume_tag_index old.tags v.tags v.volser)
            v.tags old.tags v.volser } := by
  unfold update_volume at h
  cases hl : mLookup sys.volumes v.volser with
  | none =>
    rw [hl] at h
    cases h
  | some old =>
    rw [hl] at h
    simp only at h
    exact ⟨old, rfl, (Except.ok.inj h).symm⟩

theorem update_dataset_ok_elim {sys : TMSSystem} {d : Dataset} {sys' : TMSSystem}
    (h : update_dataset sys d = .ok sys') :
    ∃ old, mLookup sys.datasets d.name = some old ∧
      sys' = { sys with
        datasets := mInsert sys.datasets d.name d,
        dataset_owner_index :=
          if old.owner ≠ d.owner then
            sys.dataset_owner_index.update old.owner d.owner d.name
          else sys.dataset_owner_index,
        dataset_tag_index :=
          addNewTags (removeStaleTags sys.dataset_tag_index old.tags d.tags d.name)
            d.tags old.tags d.name } := by
  unfold update_dataset at h
  cases hl : mLookup sys.datasets d.name with
  | none =>
    rw [hl] at h
    cases h
  | some old =>
    rw [hl] at h
    simp only at h
    exact ⟨old, rfl, (Except.ok.inj h).symm⟩

theorem delete_volume_ok_elim {now : Nat} {sys : TMSSystem} {volser : String}
    {force : Bool} {sys' : TMSSystem}
    (h : delete_volume now sys volser force = .ok sys') :
    ∃ vol, mLookup sys.volumes volser = some vol ∧
      sys' = delete_volume_apply sys vol volser force := by
  unfold delete_volume at h
  cases hl : mLookup sys.volumes volser with
  | none =>
    rw [hl] at h
    cases h
  | some vol =>
    rw [hl] at h
    simp only at h
    by_cases c1 : ¬ force = true ∧ vol.datasets ≠ []
    · rw [if_pos c1] at h
      cases h
    · rw [if_neg c1] at h
      by_cases c2 : vol.status = .MOUNTED
      · rw [if_pos c2] at h
        cases h
      · rw [if_neg c2] at h
        by_cases c3 : vol.is_reserved now = true
        · rw [if_pos c3] at h
          cases h
        · rw [if_neg c3] at h
          exact ⟨vol, rfl, (Except.ok.inj h).symm⟩

theorem delete_volume_apply_vol_components (sys : TMSSystem) (vol : TapeVolume)
    (volser : String) (force : Bool) :
    (delete_volume_apply sys vol volser force).volumes = mErase sys.volumes volser ∧
    (delete_volume_apply sys vol volser force).volume_owner_index =
      sys.volume_owner_index.remove vol.owner volser ∧
    (delete_volume_apply sys vol volser force).volume_pool_index =
      sys.volume_pool_index.remove vol.pool volser ∧
    (delete_volume_apply sys vol volser force).volume_tag_index =
      removeTags sys.volume_tag_index vol.tags volser := by
  cases force with
  | false => exact ⟨rfl, rfl, rfl, rfl⟩
  | true =>
    refine ⟨?_, ?_, ?_, ?_⟩
    · show mErase (cascade_delete_datasets _ vol.datasets).volumes volser = _
      rw [cascade_volumes_eq]
    · show (cascade_delete_datasets _ vol.datasets).volume_owner_index = _
      rw [cascade_owner_eq]
    · show (cascade_delete_datasets _ vol.datasets).volume_pool_index = _
      rw [cascade_pool_eq]
    · show (cascade_delete_datasets _ vol.datasets).volume_tag_index = _
      rw [cascade_tag_eq]

theorem cascade_ds_inv (names : List String) :
    ∀ sys : TMSSystem, SortedKeys sys.datasets →
      SortedKeys sys.dataset_owner_index → SortedKeys sys.dataset_tag_index →
      IdxOK sys.dataset_owner_index sys.datasets (fun d => [d.owner]) →
      IdxOK sys.dataset_tag_index sys.datasets (fun d => d.tags) →
      SortedKeys (cascade_delete_datasets sys names).datasets ∧
      SortedKeys (cascade_delete_datasets sys names).dataset_owner_index ∧
      SortedKeys (cascade_delete_datasets sys names).dataset_tag_index ∧
      IdxOK (cascade_delete_datasets sys names).dataset_owner_index
        (cascade_delete_datasets sys names).datasets (fun d => [d.owner]) ∧
      IdxOK (cascade_delete_datasets sys names).dataset_tag_index
        (cascade_delete_datasets sys names).datasets (fun d => d.tags) := by
  induction names with
  | nil =>
    intro sys h1 h2 h3 h4 h5
    exact ⟨h1, h2, h3, h4, h5⟩
  | cons n rest ih =>
    intro sys h1 h2 h3 h4 h5
    unfold cascade_delete_datasets
    cases hl : mLookup sys.datasets n with
    | none => exact ih sys h1 h2 h3 h4 h5
    | some ds =>
      exact ih _ (mErase_sorted h1 n) (remove_sorted h2 ds.owner n)
        (removeTags_sorted h3 ds.tags n)
        (IdxOK_erase h4 h1 hl (memIdx_remove_char h2 ds.owner n))
        (IdxOK_erase h5 h1 hl (fun a k => memIdx_removeTags h3 ds.tags n a k))

theorem inv_step (cfg : Config) (op : CatOp) {sys : TMSSystem}
    (h : WF sys ∧ IndexInv sys) :
    WF (apply_cat_op cfg sys op) ∧ IndexInv (apply_cat_op cfg sys op) := by
  unfold WF IndexInv at h ⊢
  obtain ⟨⟨hsV, hsD, hsIO, hsIP, hsIT, hsDO, hsDT⟩, hiO, hiP, hiT, hdO, hdT⟩ := h
  cases op with
  | addVol now v =>
    simp only [apply_cat_op]
    cases hop : add_volume cfg now sys v with
    | error e =>
      exact ⟨⟨hsV, hsD, hsIO, hsIP, hsIT, hsDO, hsDT⟩, hiO, hiP, hiT, hdO, hdT⟩
    | ok sys' =>
      obtain ⟨hfresh, hsys'⟩ := add_volume_ok_elim hop
      subst hsys'
      refine ⟨⟨mInsert_sorted hsV _ _, hsD, add_sorted hsIO _ _, add_sorted hsIP _ _,
        addTags_sorted hsIT _ _, hsDO, hsDT⟩, ?_, ?_, ?_, hdO, hdT⟩
      · exact IdxOK_insert_fresh hiO hfresh
          (memIdx_add_char sys.volume_owner_index (volume_with_defaults now v).owner v.volser)
      · exact IdxOK_insert_fresh hiP hfresh
          (memIdx_add_char sys.volume_pool_index (volume_with_defaults now v).pool v.volser)
      · exact IdxOK_insert_fresh hiT hfresh
          (memIdx_addTags (volume_with_defaults now v).tags v.volser sys.volume_tag_index)
  | updVol v =>
    simp only [apply_cat_op]
    cases hop : update_volume sys v with
    | error e =>
      exact ⟨⟨hsV, hsD, hsIO, hsIP, hsIT, hsDO, hsDT⟩, hiO, hiP, hiT, hdO, hdT⟩
    | ok sys' =>
      obtain ⟨old, hold, hsys'⟩ := update_volume_ok_elim hop
      subst hsys'
      refine ⟨⟨mInsert_sorted hsV _ _, hsD, update_ite_sorted hsIO _ _ _,
        update_ite_sorted hsIP _ _ _,
        addNewTags_sorted (removeStaleTags_sorted hsIT _ _ _) _ _ _, hsDO, hsDT⟩,
        ?_, ?_, ?_, hdO, hdT⟩
      · exact IdxOK_replace hiO hold (memIdx_update_char hsIO old.owner v.owner v.volser)
      · exact IdxOK_replace hiP hold (memIdx_update_char hsIP old.pool v.pool v.volser)
      · exact IdxOK_replace hiT hold (memIdx_updTags_char hsIT old.tags v.tags v.volser)
  | delVol now volser force =>
    simp only [apply_cat_op, run_delete_volume]
    cases hop : delete_volume now sys volser force with
    | error e =>
      exact ⟨⟨hsV, hsD, hsIO, hsIP, hsIT, hsDO, hsDT⟩, hiO, hiP, hiT, hdO, hdT⟩
    | ok sys' =>
      obtain ⟨vol, hvol, hsys'⟩ := delete_volume_ok_elim hop
      subst hsys'
      obtain ⟨hV, hEqOwn, hIP, hIT⟩ := delete_volume_apply_vol_components sys vol volser force
      cases force with
      | false =>
        refine ⟨⟨?_, hsD, ?_, ?_, ?_, hsDO, hsDT⟩, ?_, ?_, ?_, hdO, hdT⟩
        · rw [hV]
          exact mErase_sorted hsV _
        · rw [hEqOwn]
          exact remove_sorted hsIO _ _
        · rw [hIP]
          exact remove_sorted hsIP _ _
        · rw [hIT]
          exact removeTags_sorted hsIT _ _
        · rw [hEqOwn, hV]
          exact IdxOK_erase hiO hsV hvol (memIdx_remove_char hsIO vol.owner volser)
        · rw [hIP, hV]
          exact IdxOK_erase hiP hsV hvol (memIdx_remove_char hsIP vol.pool volser)
        · rw [hIT, hV]
          exact IdxOK_erase hiT hsV hvol
            (fun a k => memIdx_removeTags hsIT vol.tags volser a k)
      | true =>
        have hcas := cascade_ds_inv vol.datasets
          { sys with
            volume_owner_index := sys.volume_owner_index.remove vol.owner volser,
            volume_pool_index := sys.volume_pool_index.remove vol.pool volser,
            volume_tag_index := removeTags sys.volume_tag_index vol.tags volser }
          hsD hsDO hsDT hdO hdT
        refine ⟨⟨?_, hcas.1, ?_, ?_, ?_, hcas.2.1, hcas.2.2.1⟩,
          ?_, ?_, ?_, hcas.2.2.2.1, hcas.2.2.2.2⟩
        · rw [hV]
          exact mErase_sorted hsV _
        · rw [hEqOwn]
          exact remove_sorted hsIO _ _
        · rw [hIP]
          exact remove_sorted hsIP _ _
        · rw [hIT]
          exact removeTags_sorted hsIT _ _
        · rw [hEqOwn, hV]
          exact IdxOK_erase hiO hsV hvol (memIdx_remove_char hsIO vol.owner volser)
        · rw [hIP, hV]
          exact IdxOK_erase hiP hsV hvol (memIdx_remove_char hsIP vol.pool volser)
        · rw [hIT, hV]
          exact IdxOK_erase hiT hsV hvol
            (fun a k => memIdx_removeTags hsIT vol.tags volser a k)
  | addDs now d =>
    simp only [apply_cat_op]
    cases hop : add_dataset cfg now sys d with
    | error e =>
      exact ⟨⟨hsV, hsD, hsIO, hsIP, hsIT, hsDO, hsDT⟩, hiO, hiP, hiT, hdO, hdT⟩
    | ok sys' =>
      obtain ⟨-, -, hfresh, vol, hvol, hsys'⟩ := add_dataset_ok_elim hop
      subst hsys'
      refine ⟨⟨mInsert_sorted hsV _ _, mInsert_sorted hsD _ _, hsIO, hsIP, hsIT,
        add_sorted hsDO _ _, addTags_sorted hsDT _ _⟩, ?_, ?_, ?_, ?_, ?_⟩
      · exact IdxOK_replace_same hiO hvol rfl
      · exact IdxOK_replace_same hiP hvol rfl
      · exact IdxOK_replace_same hiT hvol rfl
      · exact IdxOK_insert_fresh hdO hfresh
          (memIdx_add_char sys.dataset_owner_index (dataset_with_defaults now d).owner d.name)
      · exact IdxOK_insert_fresh hdT hfresh
          (memIdx_addTags (dataset_with_defaults now d).tags d.name sys.dataset_tag_index)
  | updDs d =>
    simp only [apply_cat_op]
    cases hop : update_dataset sys d with
    | error e =>
      exact ⟨⟨hsV, hsD, hsIO, hsIP, hsIT, hsDO, hsDT⟩, hiO, hiP, hiT, hdO, hdT⟩
    | ok sys' =>
      obtain ⟨old, hold, hsys'⟩ := update_dataset_ok_elim hop
      subst hsys'
      refine ⟨⟨hsV, mInsert_sorted hsD _ _, hsIO, hsIP, hsIT,
        update_ite_sorted hsDO _ _ _,
        addNewTags_sorted (removeStaleTags_sorted hsDT _ _ _) _ _ _⟩,
        hiO, hiP, hiT, ?_, ?_⟩
      · exact IdxOK_replace hdO hold (memIdx_update_char hsDO old.owner d.owner d.name)
      · exact IdxOK_replace hdT hold (memIdx_updTags_char hsDT old.tags d.tags d.name)
  | delDs name =>
    simp only [apply_cat_op]
    cases hop : delete_dataset sys name with
    | error e =>
      exact ⟨⟨hsV, hsD, hsIO, hsIP, hsIT, hsDO, hsDT⟩, hiO, hiP, hiT, hdO, hdT⟩
    | ok sys' =>
      obtain ⟨ds, hlook, hsys'⟩ := delete_dataset_ok_elim hop
      subst hsys'
      unfold delete_dataset_apply
      cases hvl : mLookup sys.volumes ds.volser with
      | none =>
        refine ⟨⟨hsV, mErase_sorted hsD _, hsIO, hsIP, hsIT, remove_sorted hsDO _ _,
          removeTags_sorted hsDT _ _⟩, hiO, hiP, hiT, ?_, ?_⟩
        · exact IdxOK_erase hdO hsD hlook (memIdx_remove_char hsDO ds.owner name)
        · exact IdxOK_erase hdT hsD hlook
            (fun a k => memIdx_removeTags hsDT ds.tags name a k)
      | some vol =>
        refine ⟨⟨mInsert_sorted hsV _ _, mErase_sorted hsD _, hsIO, hsIP, hsIT,
          remove_sorted hsDO _ _, removeTags_sorted hsDT _ _⟩, ?_, ?_, ?_, ?_, ?_⟩
        · exact IdxOK_replace_same hiO hvl rfl
        · exact IdxOK_replace_same hiP hvl rfl
        · exact IdxOK_replace_same hiT hvl rfl
        · exact IdxOK_erase hdO hsD hlook (memIdx_remove_char hsDO ds.owner name)
        · exact IdxOK_erase hdT hsD hlook
            (fun a k => memIdx_removeTags hsDT ds.tags name a k)

theorem inv_run (cfg : Config) (ops : List CatOp) :
    ∀ sys : TMSSystem, WF sys ∧ IndexInv sys →
      WF (run_cat_ops cfg sys ops) ∧ IndexInv (run_cat_ops cfg sys ops) := by
  induction ops with
  | nil =>
    intro sys h
    exact h
  | cons op rest ih =>
    intro sys h
    exact ih _ (inv_step cfg op h)

theorem emptySystem_inv : WF emptySystem ∧ IndexInv emptySystem := by
  unfold WF IndexInv
  refine ⟨⟨sortedKeys_nil, sortedKeys_nil, sortedKeys_nil, sortedKeys_nil, sortedKeys_nil,
    sortedKeys_nil, sortedKeys_nil⟩, ?_, ?_, ?_, ?_, ?_⟩ <;>
  · intro a k
    simp [memIdx, SecondaryIndex.find, emptySystem, mLookup]

/-- Claim C2, corrected.  After every sequence of add/update/delete
operations on volumes and datasets (each starting from the fresh catalog),
all five secondary indices agree with the primary maps both ways — a key
is listed under an attribute value iff a stored record carries that value
— RESTRICTED to non-empty attribute values: `SecondaryIndex::add` skips
empty values, so a record whose owner/pool/tag is `""` is stored but never
indexed, and the unrestricted claim fails (see the counterexample).
Consequently every stored record with a non-empty owner/pool/tag is found
by the corresponding retrieval call. -/
theorem C2_index_consistency (cfg : Config) (ops : List CatOp) :
    IndexInv (run_cat_ops cfg emptySystem ops) ∧
    (∀ p ∈ (run_cat_ops cfg emptySystem ops).volumes, p.2.owner ≠ "" →
      p.2 ∈ get_volumes_by_owner (run_cat_ops cfg emptySystem ops) p.2.owner) ∧
    (∀ p ∈ (run_cat_ops cfg emptySystem ops).volumes, p.2.pool ≠ "" →
      p.2 ∈ get_volumes_by_pool (run_cat_ops cfg emptySystem ops) p.2.pool) ∧
    (∀ p ∈ (run_cat_ops cfg emptySystem ops).volumes, ∀ t ∈ p.2.tags, t ≠ "" →
      p.2 ∈ find_volumes_by_tag (run_cat_ops cfg emptySystem ops) t) ∧
    (∀ p ∈ (run_cat_ops cfg emptySystem ops).datasets, p.2.owner ≠ "" →
      p.2 ∈ get_datasets_by_owner (run_cat_ops cfg emptySystem ops) p.2.owner) ∧
    (∀ p ∈ (run_cat_ops cfg emptySystem ops).datasets, ∀ t ∈ p.2.tags, t ≠ "" →
      p.2 ∈ find_datasets_by_tag (run_cat_ops cfg emptySystem ops) t) := by
  obtain ⟨hwf, hinv⟩ := inv_run cfg ops emptySystem emptySystem_inv
  have hwf' := hwf
  have hinv' := hinv
  unfold WF at hwf'
  unfold IndexInv at hinv'
  obtain ⟨hsV, hsD, -, -, -, -, -⟩ := hwf'
  obtain ⟨hiO, hiP, hiT, hdO, hdT⟩ := hinv'
  refine ⟨hinv, ?_, ?_, ?_, ?_, ?_⟩
  · intro p hp hne
    obtain ⟨k, v⟩ := p
    have hlk : mLookup (run_cat_ops cfg emptySystem ops).volumes k = some v :=
      mLookup_eq_some_of_mem hsV hp
    exact List.mem_filterMap.mpr
      ⟨k, (hiO v.owner k).mpr ⟨hne, v, hlk, List.mem_singleton.mpr rfl⟩, hlk⟩
  · intro p hp hne
    obtain ⟨k, v⟩ := p
    have hlk : mLookup (run_cat_ops cfg emptySystem ops).volumes k = some v :=
      mLookup_eq_some_of_mem hsV hp
    exact List.mem_filterMap.mpr
      ⟨k, (hiP v.pool k).mpr ⟨hne, v, hlk, List.mem_singleton.mpr rfl⟩, hlk⟩
  · intro p hp t ht hne
    obtain ⟨k, v⟩ := p
    have hlk : mLookup (run_cat_ops cfg emptySystem ops).volumes k = some v :=
      mLookup_eq_some_of_mem hsV hp
    exact List.mem_filterMap.mpr ⟨k, (hiT t k).mpr ⟨hne, v, hlk, ht⟩, hlk⟩
  · intro p hp hne
    obtain ⟨k, v⟩ := p
    have hlk : mLookup (run_cat_ops cfg emptySystem ops).datasets k = some v :=
      mLookup_eq_some_of_mem hsD hp
    exact List.mem_filterMap.mpr
      ⟨k, (hdO v.owner k).mpr ⟨hne, v, hlk, List.mem_singleton.mpr rfl⟩, hlk⟩
  · intro p hp t ht hne
    obtain ⟨k, v⟩ := p
    have hlk : mLookup (run_cat_ops cfg emptySystem ops).datasets k = some v :=
      mLookup_eq_some_of_mem hsD hp
    exact List.mem_filterMap.mpr ⟨k, (hdT t k).mpr ⟨hne, v, hlk, ht⟩, hlk⟩

/-- Witness for C2: adding one fully specified owned volume makes it
retrievable through the owner index. -/
theorem C2_index_consistency_witness :
    wVolC2W ∈ get_volumes_by_owner
      (run_cat_ops {} emptySystem [CatOp.addVol 0 wVolC2W]) "ops" :=
  (C2_index_consistency {} [CatOp.addVol 0 wVolC2W]).2.1 ("VOL001", wVolC2W)
    (by decide) (by decide)

/-- Counterexample to the unrestricted claim: a volume with a defaulted
(empty) owner is stored by `add_volume` yet `get_volumes_by_owner` of its
owner returns nothing, because `SecondaryIndex::add` skips empty
attribute values. -/
theorem C2_index_consistency_counterexample :
    ∃ p ∈ (run_cat_ops {} emptySystem [CatOp.addVol 0 wVolC2]).volumes,
      p.2 ∉ get_volumes_by_owner
        (run_cat_ops {} emptySystem [CatOp.addVol 0 wVolC2]) p.2.owner := by
  decide

/-! ## Claim C1: scratch allocation -/

theorem find_scratch_none_iff (now : Nat) (pool : String) (density : Option TapeDensity)
    (l : List (String × TapeVolume)) :
    find_scratch_volume now pool density l = none ↔
      ∀ k v, (k, v) ∈ l → scratch_eligible now pool density v = false := by
  induction l with
  | nil => simp [find_scratch_volume]
  | cons p rest ih =>
    obtain ⟨k₀, v₀⟩ := p
    unfold find_scratch_volume
    by_cases he : scratch_eligible now pool density v₀
    · rw [if_pos he]
      constructor
      · intro h
        cases h
      · intro h
        have := h k₀ v₀ (List.mem_cons_self _ _)
        rw [he] at this
        cases this
    · rw [if_neg he]
      rw [ih]
      constructor
      · intro h k v hm
        rcases List.mem_cons.mp hm with h' | h'
        · have h₁ : v = v₀ := congrArg Prod.snd h'
          rw [h₁]
          exact Bool.not_eq_true _ ▸ (by simpa using he)
        · exact h k v h'
      · intro h k v hm
        exact h k v (List.mem_cons_of_mem _ hm)

theorem find_scratch_some_mem (now : Nat) (pool : String) (density : Option TapeDensity)
    {l : List (String × TapeVolume)} {k₀ : String} {v₀ : TapeVolume}
    (h : find_scratch_volume now pool density l = some (k₀, v₀)) :
    (k₀, v₀) ∈ l ∧ scratch_eligible now pool density v₀ = true := by
  induction l with
  | nil => cases h
  | cons p rest ih =>
    obtain ⟨k₁, v₁⟩ := p
    unfold find_scratch_volume at h
    by_cases he : scratch_eligible now pool density v₁
    · rw [if_pos he] at h
      obtain ⟨h₁, h₂⟩ := Prod.mk.injEq .. ▸ Option.some.inj h
      subst h₁
      subst h₂
      exact ⟨List.mem_cons_self _ _, he⟩
    · rw [if_neg he] at h
      obtain ⟨hm, helig⟩ := ih h
      exact ⟨List.mem_cons_of_mem _ hm, helig⟩

theorem find_scratch_min (now : Nat) (pool : String) (density : Option TapeDensity)
    {l : List (String × TapeVolume)} (hs : SortedKeys l) {k₀ : String} {v₀ : TapeVolume}
    (h : find_scratch_volume now pool density l = some (k₀, v₀)) :
    ∀ k v, (k, v) ∈ l → scratch_eligible now pool density v = true → k₀ ≤ k := by
  induction l with
  | nil => cases h
  | cons p rest ih =>
    obtain ⟨k₁, v₁⟩ := p
    have hlt : ∀ q ∈ rest, k₁ < q.1 := (sortedKeys_cons_iff.mp hs).1
    have hrest : SortedKeys rest := (sortedKeys_cons_iff.mp hs).2
    unfold find_scratch_volume at h
    by_cases he : scratch_eligible now pool density v₁
    · rw [if_pos he] at h
      have h₁ : k₀ = k₁ := (congrArg Prod.fst (Option.some.inj h)).symm
      subst h₁
      intro k v hm _
      rcases List.mem_cons.mp hm with h' | h'
      · exact le_of_eq (congrArg Prod.fst h').symm
      · exact le_of_lt (hlt (k, v) h')
    · rw [if_neg he] at h
      intro k v hm helig
      rcases List.mem_cons.mp hm with h' | h'
      · have hv : v = v₁ := congrArg Prod.snd h'
        rw [hv] at helig
        rw [helig] at he
        cases he rfl
      · exact ih hrest h k v h' helig

/-- Claim C1, confirmed.  On a catalog with sorted volumes (the `std::map`
invariant), `allocate_scratch_volume`: on success it returns a stored
volume that satisfies the scratch-eligibility predicate (SCRATCH, not
reserved, not expired, pool and density filters) and whose volser is
lexicographically least among all eligible volumes; it transitions exactly
that volume's status to PRIVATE (touching `last_used` only), leaves every
other volume and all other state components unchanged; with no eligible
volume it fails with NO_SCRATCH_AVAILABLE (the error branch returns
without mutating). -/
theorem C1_scratch_allocation
    (now : Nat) (sys : TMSSystem) (pool : String) (density : Option TapeDensity)
    (hs : SortedKeys sys.volumes) :
    (∀ volser sys', allocate_scratch_volume now sys pool density = .ok (volser, sys') →
      ∃ vol, mLookup sys.volumes volser = some vol
        ∧ scratch_eligible now pool density vol = true
        ∧ (∀ k v, (k, v) ∈ sys.volumes →
            scratch_eligible now pool density v = true → volser ≤ k)
        ∧ sys'.volumes = mInsert sys.volumes volser
            { vol with status := .PRIVATE, last_used := now }
        ∧ mLookup sys'.volumes volser
            = some { vol with status := .PRIVATE, last_used := now }
        ∧ (∀ k, k ≠ volser → mLookup sys'.volumes k = mLookup sys.volumes k)
        ∧ sys'.datasets = sys.datasets
        ∧ sys'.volume_owner_index = sys.volume_owner_index
        ∧ sys'.volume_pool_index = sys.volume_pool_index
        ∧ sys'.volume_tag_index = sys.volume_tag_index
        ∧ sys'.dataset_owner_index = sys.dataset_owner_index
        ∧ sys'.dataset_tag_index = sys.dataset_tag_index) ∧
    ((∀ k v, (k, v) ∈ sys.volumes → scratch_eligible now pool density v = false) →
      allocate_scratch_volume now sys pool density
        = .error ⟨.NO_SCRATCH_AVAILABLE, "No scratch volumes available"⟩) := by
  constructor
  · intro volser sys' hok
    unfold allocate_scratch_volume at hok
    cases hfind : find_scratch_volume now pool density sys.volumes with
    | none => rw [hfind] at hok; cases hok
    | some p =>
      obtain ⟨k₀, v₀⟩ := p
      rw [hfind] at hok
      simp only at hok
      obtain ⟨hk, hsys⟩ := Prod.mk.injEq .. ▸ Except.ok.inj hok
      subst hk
      obtain ⟨hmem, helig⟩ := find_scratch_some_mem now pool density hfind
      refine ⟨v₀, mLookup_eq_some_of_mem hs hmem, helig,
        find_scratch_min now pool density hs hfind, ?_, ?_, ?_,
        by rw [← hsys], by rw [← hsys], by rw [← hsys], by rw [← hsys],
        by rw [← hsys], by rw [← hsys]⟩
      · rw [← hsys]
      · rw [← hsys]
        simp only
        rw [mLookup_mInsert, if_pos rfl]
      · intro k hk
        rw [← hsys]
        simp only
        rw [mLookup_mInsert, if_neg hk]
  · intro hnone
    unfold allocate_scratch_volume
    rw [(find_scratch_none_iff now pool density sys.volumes).mpr hnone]

/-- Witness for C1: the spec's example — A01 and B01 SCRATCH, C01
PRIVATE — where allocation picks A01, the lowest eligible volser. -/
theorem C1_scratch_allocation_witness :
    ∃ vol, mLookup wSysAlloc.volumes "A01" = some vol
      ∧ scratch_eligible 20 "" none vol = true
      ∧ (∀ k v, (k, v) ∈ wSysAlloc.volumes →
          scratch_eligible 20 "" none v = true → "A01" ≤ k)
      ∧ ({ wSysAlloc with
            volumes := mInsert wSysAlloc.volumes "A01"
              { wVolA with status := .PRIVATE, last_used := 20 } } : TMSSystem).volumes
          = mInsert wSysAlloc.volumes "A01" { vol with status := .PRIVATE, last_used := 20 }
      ∧ mLookup ({ wSysAlloc with
            volumes := mInsert wSysAlloc.volumes "A01"
              { wVolA with status := .PRIVATE, last_used := 20 } } : TMSSystem).volumes "A01"
          = some { vol with status := .PRIVATE, last_used := 20 }
      ∧ (∀ k, k ≠ "A01" →
          mLookup ({ wSysAlloc with
            volumes := mInsert wSysAlloc.volumes "A01"
              { wVolA with status := .PRIVATE, last_used := 20 } } : TMSSystem).volumes k
            = mLookup wSysAlloc.volumes k)
      ∧ ({ wSysAlloc with
            volumes := mInsert wSysAlloc.volumes "A01"
              { wVolA with status := .PRIVATE, last_used := 20 } } : TMSSystem).datasets
          = wSysAlloc.datasets
      ∧ ({ wSysAlloc with
            volumes := mInsert wSysAlloc.volumes "A01"
              { wVolA with status := .PRIVATE, last_used := 20 } } : TMSSystem).volume_owner_index
          = wSysAlloc.volume_owner_index
      ∧ ({ wSysAlloc with
            volumes := mInsert wSysAlloc.volumes "A01"
              { wVolA with status := .PRIVATE, last_used := 20 } } : TMSSystem).volume_pool_index
          = wSysAlloc.volume_pool_index
      ∧ ({ wSysAlloc with
            volumes := mInsert wSysAlloc.volumes "A01"
              { wVolA with status := .PRIVATE, last_used := 20 } } : TMSSystem).volume_tag_index
          = wSysAlloc.volume_tag_index
      ∧ ({ wSysAlloc with
            volumes := mInsert wSysAlloc.volumes "A01"
              { wVolA with status := .PRIVATE, last_used := 20 } } : TMSSystem).dataset_owner_index
          = wSysAlloc.dataset_owner_index
      ∧ ({ wSysAlloc with
            volumes := mInsert wSysAlloc.volumes "A01"
              { wVolA with status := .PRIVATE, last_used := 20 } } : TMSSystem).dataset_tag_index
          = wSysAlloc.dataset_tag_index :=
  (C1_scratch_allocation 20 wSysAlloc "" none (by decide)).1 "A01"
    { wSysAlloc with
      volumes := mInsert wSysAlloc.volumes "A01"
        { wVolA with status := .PRIVATE, last_used := 20 } } rfl

/-- Witness for C6: adding `DATA.SET.ONE` to the scratch volume VOL001
makes it PRIVATE; deleting the dataset makes it SCRATCH again. -/
theorem C6_lifecycle_roundtrip_witness :
    ∃ sys₁, add_dataset {} 10 wSysScratch wDs = .ok sys₁
      ∧ (mLookup sys₁.volumes wDs.volser).map TapeVolume.status = some .PRIVATE
      ∧ ∃ sys₂, delete_dataset sys₁ wDs.name = .ok sys₂
        ∧ (mLookup sys₂.volumes wDs.volser).map TapeVolume.status = some .SCRATCH :=
  C6_lifecycle_roundtrip {} 10 wSysScratch wDs wVolScratch
    (by decide) (by decide) (by decide) (by decide) (by decide) (by decide)

end TMS
